import Mathlib

/-!
# mkv-remux: a shallow embedding of `main.go` and its verified properties

The program probes a media container, selects one video stream, one audio
stream and one subtitle stream per preferred language, and prints an `ffmpeg`
command line.  The definitions below follow `src/main.go` function by
function; the loops of `mux` are recursive functions over the stream list that
stop at the first match (the `break` of the Go loops), threading the local
variables `output`, `streamIndex`, `origLang` and the lines written to the
diagnostic output.
-/

namespace MkvRemux

/-! ## Constants and data model (`main.go`, lines 12-31) -/

/-- The constant `DefaultOrigLang`. -/
def DefaultOrigLang : String := "eng"

/-- The constant `TargetLang`. -/
def TargetLang : String := "rus"

/-- The struct `ParsedTag`. -/
structure ParsedTag where
  Language : String
  deriving DecidableEq, Repr

/-- The struct `ParsedStream`.  `Index` is a Go `int`, `Channels` a Go `byte`
(a number below 256; it is only ever compared with 6). -/
structure ParsedStream where
  Index : Int
  CodecName : String
  CodecType : String
  Channels : Nat
  Tags : ParsedTag
  deriving DecidableEq, Repr

/-- The struct `ParsedMovie`. -/
structure ParsedMovie where
  Streams : List ParsedStream
  deriving DecidableEq, Repr

/-! ## Formatting helpers (`fmt.Sprintf`) -/

/-- The call `fmt.Sprintf("0:%d", i)`. -/
def fmtMap (i : Int) : String := "0:" ++ toString i

/-- The call `fmt.Sprintf("-c:%d", k)`. -/
def fmtCodec (k : Nat) : String := "-c:" ++ toString k

/-- The call `fmt.Sprintf("-b:%d", k)`. -/
def fmtBitrate (k : Nat) : String := "-b:" ++ toString k

/-- The call `fmt.Sprintf("-metadata:s:%d", k)`. -/
def fmtMeta (k : Nat) : String := "-metadata:s:" ++ toString k

/-- The call `fmt.Sprintf("language=%s", l)`. -/
def fmtLang (l : String) : String := "language=" ++ l

/-- The call `fmt.Sprintf("\"%s\"", p)`: the path between double quotes. -/
def fmtQuote (p : String) : String := "\"" ++ p ++ "\""

/-- The increment `streamIndex++` of a `byte` variable. -/
def incByte (k : Nat) : Nat := (k + 1) % 256

/-! ## `addAudioStream` and `addSubtitleStream` (`main.go`, lines 54-73) -/

/-- The function `addAudioStream`. -/
def addAudioStream (output : List String) (stream : ParsedStream) (streamIndex : Nat) :
    List String :=
  let output := output ++ ["-map", fmtMap stream.Index]
  let output :=
    if stream.CodecName = "ac3" ∨ stream.CodecName = "eac3" ∨ stream.CodecName = "aac" then
      output ++ [fmtCodec streamIndex, "copy"]
    else
      output ++ [fmtCodec streamIndex, "ac3", fmtBitrate streamIndex, "640k"]
  output ++ [fmtMeta streamIndex, fmtLang stream.Tags.Language]

/-- The function `addSubtitleStream`. -/
def addSubtitleStream (output : List String) (stream : ParsedStream) (streamIndex : Nat) :
    List String :=
  output ++
    ["-map", fmtMap stream.Index,
     fmtCodec streamIndex, "copy",
     fmtMeta streamIndex, fmtLang stream.Tags.Language]

/-! ## `mux` (`main.go`, lines 75-153) -/

/-- The local variables of `mux` that its loops update, together with the
lines written to `os.Stderr`. -/
structure MuxState where
  output : List String
  streamIndex : Nat
  origLang : String
  stderr : List String
  deriving DecidableEq, Repr

/-- The line written by `fmt.Fprintln(os.Stderr, "[warn] ...", DefaultOrigLang)`. -/
def warnLine : String :=
  "[warn] video language is not defined, use default one:" ++ " " ++ DefaultOrigLang ++ "\n"

/-- The initial token list of `mux` (lines 81-91). -/
def initOutput (source : String) : List String :=
  ["ffmpeg",
   "-fflags", "+genpts",
   "-i", fmtQuote source,
   "-map_chapters", "-1",
   "-map_metadata", "-1",
   "-default_mode", "infer_no_subs"]

/-- The loop "get video stream" (lines 98-116): the body runs for the first
stream whose codec type is `video` and then breaks. -/
def videoLoop : List ParsedStream → MuxState → MuxState
  | [], st => st
  | stream :: rest, st =>
    if stream.CodecType = "video" then
      let origLang :=
        if st.origLang = "" ∧ stream.Tags.Language ≠ "" then stream.Tags.Language
        else st.origLang
      let stderr := if origLang = "" then st.stderr ++ [warnLine] else st.stderr
      let origLang := if origLang = "" then DefaultOrigLang else origLang
      { output := st.output ++
          ["-map", fmtMap stream.Index,
           fmtCodec st.streamIndex, "copy",
           fmtMeta st.streamIndex, fmtLang origLang]
        streamIndex := incByte st.streamIndex
        origLang := origLang
        stderr := stderr }
    else videoLoop rest st

/-- The list `languages` (lines 119-125). -/
def languages (origLang : String) : List String :=
  let languages := [TargetLang]
  let languages := if origLang ≠ TargetLang then languages ++ [origLang] else languages
  if origLang ≠ DefaultOrigLang then languages ++ [DefaultOrigLang] else languages

/-- The inner loop of "get audio stream" (lines 129-135) for one language. -/
def audioInner (lang : String) : List ParsedStream → MuxState → MuxState
  | [], st => st
  | stream :: rest, st =>
    if stream.CodecType = "audio" ∧ stream.Tags.Language = lang ∧ stream.Channels ≤ 6 then
      { st with
        output := addAudioStream st.output stream st.streamIndex
        streamIndex := incByte st.streamIndex }
    else audioInner lang rest st

/-- The outer loop of "get audio stream" (lines 128-136). -/
def audioLoop (streams : List ParsedStream) : List String → MuxState → MuxState
  | [], st => st
  | lang :: rest, st => audioLoop streams rest (audioInner lang streams st)

/-- The inner loop of "get subtitles" (lines 140-146) for one language. -/
def subtitleInner (lang : String) : List ParsedStream → MuxState → MuxState
  | [], st => st
  | stream :: rest, st =>
    if stream.CodecType = "subtitle" ∧ stream.Tags.Language = lang then
      { st with
        output := addSubtitleStream st.output stream st.streamIndex
        streamIndex := incByte st.streamIndex }
    else subtitleInner lang rest st

/-- The outer loop of "get subtitles" (lines 139-147). -/
def subtitleLoop (streams : List ParsedStream) : List String → MuxState → MuxState
  | [], st => st
  | lang :: rest, st => subtitleLoop streams rest (subtitleInner lang streams st)

/-- The body of `mux` after a successful `parse` (lines 81-150), up to and
including the last `append`: the final values of the local variables. -/
def muxBody (movie : ParsedMovie) (source target videoLang : String) : MuxState :=
  let st : MuxState :=
    { output := initOutput source, streamIndex := 0, origLang := videoLang, stderr := [] }
  let st := videoLoop movie.Streams st
  let languages := languages st.origLang
  let st := audioLoop movie.Streams languages st
  let st := subtitleLoop movie.Streams languages st
  { st with output := st.output ++ [fmtQuote target] }

/-- What a call of `mux` produces: the returned string, the returned error
(`none` for `nil`) and the lines written to the diagnostic output. -/
structure MuxResult where
  cmd : String
  err : Option String
  stderr : List String
  deriving DecidableEq, Repr

/-- The function `mux`.  The function `parse` runs `ffprobe` and decodes its
JSON output; it is a parameter here, returning either an error or the movie. -/
def mux (parse : String → Except String ParsedMovie) (source target videoLang : String) :
    MuxResult :=
  match parse source with
  | .error e => { cmd := "", err := some e, stderr := [] }
  | .ok movie =>
    let st := muxBody movie source target videoLang
    { cmd := String.intercalate " " st.output, err := none, stderr := st.stderr }

/-! ## Vocabulary of the specification

The streams a command maps, described with `List.find?` (the first element of
the list that passes a test) instead of loops. -/

/-- The test of the video loop (line 99). -/
def isVideo (s : ParsedStream) : Bool := decide (s.CodecType = "video")

/-- The test of the audio loop for one language (line 130). -/
def isAudioFor (lang : String) (s : ParsedStream) : Bool :=
  decide (s.CodecType = "audio" ∧ s.Tags.Language = lang ∧ s.Channels ≤ 6)

/-- The test of the subtitle loop for one language (line 141). -/
def isSubtitleFor (lang : String) (s : ParsedStream) : Bool :=
  decide (s.CodecType = "subtitle" ∧ s.Tags.Language = lang)

/-- The first stream, in list order, whose codec type is `video`. -/
def firstVideo (streams : List ParsedStream) : Option ParsedStream :=
  streams.find? isVideo

/-- The first audio stream, in list order, tagged `lang` with at most 6 channels. -/
def firstAudio (streams : List ParsedStream) (lang : String) : Option ParsedStream :=
  streams.find? (isAudioFor lang)

/-- The first subtitle stream, in list order, tagged `lang`. -/
def firstSubtitle (streams : List ParsedStream) (lang : String) : Option ParsedStream :=
  streams.find? (isSubtitleFor lang)

/-- The original language once a video stream `s` has been met: the override
if it is not empty, else the tag of `s` if it is not empty, else the default. -/
def pickLang (videoLang : String) (s : ParsedStream) : String :=
  if videoLang ≠ "" then videoLang
  else if s.Tags.Language ≠ "" then s.Tags.Language
  else DefaultOrigLang

/-- The value of `origLang` after the video loop: resolved against the first
video stream when there is one, the override as it came otherwise. -/
def origLangAfterVideo (streams : List ParsedStream) (videoLang : String) : String :=
  match firstVideo streams with
  | some s => pickLang videoLang s
  | none => videoLang

/-- A stream mapped into the command: a video stream with the language it is
tagged with, an audio stream, or a subtitle stream. -/
inductive Mapped where
  | video (stream : ParsedStream) (lang : String)
  | audio (stream : ParsedStream)
  | subtitle (stream : ParsedStream)
  deriving DecidableEq, Repr

/-- The source stream of a mapped stream. -/
def Mapped.stream : Mapped → ParsedStream
  | .video s _ => s
  | .audio s => s
  | .subtitle s => s

/-- The tokens of a mapped stream that is given the output index `k`. -/
def Mapped.tokens (k : Nat) : Mapped → List String
  | .video s lang =>
    ["-map", fmtMap s.Index, fmtCodec k, "copy", fmtMeta k, fmtLang lang]
  | .audio s => addAudioStream [] s k
  | .subtitle s => addSubtitleStream [] s k

/-- The tokens of a list of mapped streams numbered `k`, `k + 1`, ... -/
def renderAt : Nat → List Mapped → List String
  | _, [] => []
  | k, m :: ms => m.tokens k ++ renderAt (k + 1) ms

/-- The tokens of a list of mapped streams numbered by the `byte` counter. -/
def renderWrap : Nat → List Mapped → List String
  | _, [] => []
  | k, m :: ms => m.tokens k ++ renderWrap (incByte k) ms

/-- The `byte` counter after `n` increments. -/
def bump : Nat → Nat → Nat
  | 0, k => k
  | n + 1, k => bump n (incByte k)

/-- The video stream of the command, if any. -/
def videoPart (streams : List ParsedStream) (videoLang : String) : List Mapped :=
  (firstVideo streams).toList.map (fun s => Mapped.video s (pickLang videoLang s))

/-- The audio streams of the command: one per language that has a match. -/
def audioPart (streams : List ParsedStream) (langs : List String) : List Mapped :=
  (langs.filterMap (firstAudio streams)).map Mapped.audio

/-- The subtitle streams of the command: one per language that has a match. -/
def subtitlePart (streams : List ParsedStream) (langs : List String) : List Mapped :=
  (langs.filterMap (firstSubtitle streams)).map Mapped.subtitle

/-- The mapped streams of the command, in the order of their tokens. -/
def selection (streams : List ParsedStream) (videoLang : String) : List Mapped :=
  let langs := languages (origLangAfterVideo streams videoLang)
  videoPart streams videoLang ++ audioPart streams langs ++ subtitlePart streams langs

/-- The lines written to the diagnostic output: the warning, when a video
stream is met while neither the override nor its tag gives a language. -/
def warnings (streams : List ParsedStream) (videoLang : String) : List String :=
  match firstVideo streams with
  | some s => if videoLang = "" ∧ s.Tags.Language = "" then [warnLine] else []
  | none => []

/-- The language a mapped stream is tagged with. -/
def Mapped.lang : Mapped → String
  | .video _ lang => lang
  | .audio s => s.Tags.Language
  | .subtitle s => s.Tags.Language

/-- A container without a video stream: one stereo AAC audio stream tagged `eng`. -/
def audioOnlyMovie : ParsedMovie :=
  { Streams :=
      [{ Index := 0, CodecName := "aac", CodecType := "audio", Channels := 2,
         Tags := { Language := "eng" } }] }

/-- A video stream tagged `rus`. -/
def scenarioVideo : ParsedStream :=
  { Index := 0, CodecName := "h264", CodecType := "video", Channels := 0,
    Tags := { Language := "rus" } }

/-- A stereo AAC audio stream tagged `eng`. -/
def scenarioAudioEng : ParsedStream :=
  { Index := 1, CodecName := "aac", CodecType := "audio", Channels := 2,
    Tags := { Language := "eng" } }

/-- A 5.1 AC-3 audio stream tagged `rus`. -/
def scenarioAudioRus : ParsedStream :=
  { Index := 2, CodecName := "ac3", CodecType := "audio", Channels := 6,
    Tags := { Language := "rus" } }

/-- A subtitle stream tagged `rus`. -/
def scenarioSubtitle : ParsedStream :=
  { Index := 3, CodecName := "subrip", CodecType := "subtitle", Channels := 0,
    Tags := { Language := "rus" } }

/-- A DTS audio stream, a codec that `addAudioStream` transcodes. -/
def dtsAudio : ParsedStream :=
  { Index := 4, CodecName := "dts", CodecType := "audio", Channels := 6,
    Tags := { Language := "eng" } }

/-- A container with a video stream, two audio streams and a subtitle stream. -/
def scenarioMovie : ParsedMovie :=
  { Streams := [scenarioVideo, scenarioAudioEng, scenarioAudioRus, scenarioSubtitle] }

/-- An AC-3 audio stream tagged `fra`, a language outside the priority list
of the scenario container. -/
def frenchAudio : ParsedStream :=
  { Index := 1, CodecName := "ac3", CodecType := "audio", Channels := 6,
    Tags := { Language := "fra" } }

/-- A container with a video stream tagged `rus` and an audio stream tagged `fra`. -/
def frenchMovie : ParsedMovie :=
  { Streams := [scenarioVideo, frenchAudio] }

/-! ## `usage` and `main` (`main.go`, lines 33-36 and 155-170) -/

/-- The lines `usage` writes to the standard output with `fmt.Println`. -/
def usageLines : List String :=
  ["MKV Remux v1.0\n",
   "Usage: mkv-remux [-lang=<video-lang>] <input-file> <output-file>\n"]

/-- What a run of `main` does: what it writes to the standard output (the
calls of `fmt.Println`), what it writes to the diagnostic output (the lines of
`mux` and the built-in `print`), and the arguments of its calls of `mux`. -/
structure MainResult where
  stdout : List String
  stderr : List String
  muxCalls : List (String × String × String)
  deriving DecidableEq, Repr

/-- The function `main`, after the `flag` package has split the command line
into the value of `-lang` (`videoLang`) and the positional arguments. -/
def main (parse : String → Except String ParsedMovie) (videoLang : String)
    (args : List String) : MainResult :=
  if args.length ≠ 2 then
    { stdout := usageLines, stderr := [], muxCalls := [] }
  else
    let source := args.getD 0 ""
    let target := args.getD 1 ""
    let r := mux parse source target videoLang
    match r.err with
    | some _ =>
      { stdout := [], stderr := r.stderr ++ ["Unable to mux file"],
        muxCalls := [(source, target, videoLang)] }
    | none =>
      { stdout := [], stderr := r.stderr ++ [r.cmd],
        muxCalls := [(source, target, videoLang)] }

/-! ## Reading a command back -/

/-- The arguments of the `-map` tokens of a token list, in order. -/
def mapArgs : List String → List String
  | [] => []
  | [_] => []
  | t :: a :: rest => if t = "-map" then a :: mapArgs rest else mapArgs (a :: rest)

/-- The position of the first element of a list that passes a test. -/
def firstIdx {α : Type} (p : α → Bool) : List α → Option Nat
  | [] => none
  | a :: l => if p a then some 0 else (firstIdx p l).map (fun i => i + 1)

/-- The list positions of the mapped streams, in the order of `selection`. -/
def positions (streams : List ParsedStream) (videoLang : String) : List Nat :=
  let langs := languages (origLangAfterVideo streams videoLang)
  (firstIdx isVideo streams).toList ++
    langs.filterMap (fun L => firstIdx (isAudioFor L) streams) ++
    langs.filterMap (fun L => firstIdx (isSubtitleFor L) streams)

/-- The number a list of decimal digits stands for. -/
def digitsValue (cs : List Char) : Nat :=
  cs.foldl (fun acc c => acc * 10 + (c.toNat - 48)) 0

/-! ## The loops as first-match searches -/

theorem addAudioStream_eq_append (output : List String) (s : ParsedStream) (k : Nat) :
    addAudioStream output s k = output ++ addAudioStream [] s k := by
  unfold addAudioStream
  split <;> simp

theorem addSubtitleStream_eq_append (output : List String) (s : ParsedStream) (k : Nat) :
    addSubtitleStream output s k = output ++ addSubtitleStream [] s k := by
  simp [addSubtitleStream]

theorem videoLoop_of_none (streams : List ParsedStream) (st : MuxState)
    (h : firstVideo streams = none) : videoLoop streams st = st := by
  induction streams with
  | nil => rfl
  | cons s rest ih =>
    have hs : s.CodecType ≠ "video" := by
      intro hv
      simp [firstVideo, List.find?_cons, isVideo, hv] at h
    have hrest : firstVideo rest = none := by
      simpa [firstVideo, List.find?_cons, isVideo, hs] using h
    simp [videoLoop, hs, ih hrest]

theorem videoLoop_of_some (streams : List ParsedStream) (st : MuxState) (s : ParsedStream)
    (h : firstVideo streams = some s) :
    videoLoop streams st =
      { output := st.output ++ (Mapped.video s (pickLang st.origLang s)).tokens st.streamIndex
        streamIndex := incByte st.streamIndex
        origLang := pickLang st.origLang s
        stderr := st.stderr ++
          (if st.origLang = "" ∧ s.Tags.Language = "" then [warnLine] else []) } := by
  induction streams with
  | nil => simp [firstVideo] at h
  | cons t rest ih =>
    by_cases ht : t.CodecType = "video"
    · have hts : t = s := by
        simpa [firstVideo, List.find?_cons, isVideo, ht] using h
      subst hts
      by_cases h1 : st.origLang = "" <;> by_cases h2 : t.Tags.Language = "" <;>
        simp [videoLoop, ht, pickLang, Mapped.tokens, h1, h2, DefaultOrigLang]
    · have hrest : firstVideo rest = some s := by
        simpa [firstVideo, List.find?_cons, isVideo, ht] using h
      simp [videoLoop, ht, ih hrest]

theorem audioInner_of_none (lang : String) (streams : List ParsedStream) (st : MuxState)
    (h : firstAudio streams lang = none) : audioInner lang streams st = st := by
  induction streams with
  | nil => rfl
  | cons s rest ih =>
    have hs : ¬ (s.CodecType = "audio" ∧ s.Tags.Language = lang ∧ s.Channels ≤ 6) := by
      intro hv
      simp [firstAudio, List.find?_cons, isAudioFor, hv] at h
    have hrest : firstAudio rest lang = none := by
      simpa [firstAudio, List.find?_cons, isAudioFor, hs] using h
    simp only [audioInner, if_neg hs, ih hrest]

theorem audioInner_of_some (lang : String) (streams : List ParsedStream) (st : MuxState)
    (s : ParsedStream) (h : firstAudio streams lang = some s) :
    audioInner lang streams st =
      { st with
        output := st.output ++ (Mapped.audio s).tokens st.streamIndex
        streamIndex := incByte st.streamIndex } := by
  induction streams with
  | nil => simp [firstAudio] at h
  | cons t rest ih =>
    by_cases ht : t.CodecType = "audio" ∧ t.Tags.Language = lang ∧ t.Channels ≤ 6
    · have hts : t = s := by
        simpa [firstAudio, List.find?_cons, isAudioFor, ht] using h
      subst hts
      simp only [audioInner, if_pos ht, Mapped.tokens]
      rw [addAudioStream_eq_append]
    · have hrest : firstAudio rest lang = some s := by
        simpa [firstAudio, List.find?_cons, isAudioFor, ht] using h
      simp only [audioInner, if_neg ht, ih hrest]

theorem subtitleInner_of_none (lang : String) (streams : List ParsedStream) (st : MuxState)
    (h : firstSubtitle streams lang = none) : subtitleInner lang streams st = st := by
  induction streams with
  | nil => rfl
  | cons s rest ih =>
    have hs : ¬ (s.CodecType = "subtitle" ∧ s.Tags.Language = lang) := by
      intro hv
      simp [firstSubtitle, List.find?_cons, isSubtitleFor, hv] at h
    have hrest : firstSubtitle rest lang = none := by
      simpa [firstSubtitle, List.find?_cons, isSubtitleFor, hs] using h
    simp only [subtitleInner, if_neg hs, ih hrest]

theorem subtitleInner_of_some (lang : String) (streams : List ParsedStream) (st : MuxState)
    (s : ParsedStream) (h : firstSubtitle streams lang = some s) :
    subtitleInner lang streams st =
      { st with
        output := st.output ++ (Mapped.subtitle s).tokens st.streamIndex
        streamIndex := incByte st.streamIndex } := by
  induction streams with
  | nil => simp [firstSubtitle] at h
  | cons t rest ih =>
    by_cases ht : t.CodecType = "subtitle" ∧ t.Tags.Language = lang
    · have hts : t = s := by
        simpa [firstSubtitle, List.find?_cons, isSubtitleFor, ht] using h
      subst hts
      simp only [subtitleInner, if_pos ht, Mapped.tokens]
      rw [addSubtitleStream_eq_append]
    · have hrest : firstSubtitle rest lang = some s := by
        simpa [firstSubtitle, List.find?_cons, isSubtitleFor, ht] using h
      simp only [subtitleInner, if_neg ht, ih hrest]

theorem audioLoop_eq (streams : List ParsedStream) (langs : List String) (st : MuxState) :
    audioLoop streams langs st =
      { st with
        output := st.output ++ renderWrap st.streamIndex (audioPart streams langs)
        streamIndex := bump (audioPart streams langs).length st.streamIndex } := by
  induction langs generalizing st with
  | nil => simp [audioLoop, audioPart, renderWrap, bump]
  | cons lang rest ih =>
    rw [audioLoop, ih]
    cases h : firstAudio streams lang with
    | none =>
      rw [audioInner_of_none lang streams st h]
      simp [audioPart, List.filterMap_cons, h]
    | some s =>
      rw [audioInner_of_some lang streams st s h]
      simp [audioPart, List.filterMap_cons, h, renderWrap, bump]

theorem subtitleLoop_eq (streams : List ParsedStream) (langs : List String) (st : MuxState) :
    subtitleLoop streams langs st =
      { st with
        output := st.output ++ renderWrap st.streamIndex (subtitlePart streams langs)
        streamIndex := bump (subtitlePart streams langs).length st.streamIndex } := by
  induction langs generalizing st with
  | nil => simp [subtitleLoop, subtitlePart, renderWrap, bump]
  | cons lang rest ih =>
    rw [subtitleLoop, ih]
    cases h : firstSubtitle streams lang with
    | none =>
      rw [subtitleInner_of_none lang streams st h]
      simp [subtitlePart, List.filterMap_cons, h]
    | some s =>
      rw [subtitleInner_of_some lang streams st s h]
      simp [subtitlePart, List.filterMap_cons, h, renderWrap, bump]

/-! ## The counter does not wrap on short lists -/

theorem bump_eq_add (n k : Nat) (h : k + n < 256) : bump n k = k + n := by
  induction n generalizing k with
  | zero => rfl
  | succ n ih =>
    have hk : incByte k = k + 1 := by
      unfold incByte
      exact Nat.mod_eq_of_lt (by omega)
    rw [bump, hk, ih (k + 1) (by omega)]
    omega

theorem renderWrap_eq_renderAt (ms : List Mapped) (k : Nat) (h : k + ms.length ≤ 256) :
    renderWrap k ms = renderAt k ms := by
  induction ms generalizing k with
  | nil => rfl
  | cons m rest ih =>
    cases rest with
    | nil => simp [renderWrap, renderAt]
    | cons m2 rest2 =>
      have hk : incByte k = k + 1 := by
        unfold incByte
        simp only [List.length_cons] at h
        exact Nat.mod_eq_of_lt (by omega)
      rw [renderWrap, renderAt, hk, ih (k + 1) (by simp only [List.length_cons] at h ⊢; omega)]

theorem renderWrap_append (xs ys : List Mapped) (k : Nat) :
    renderWrap k (xs ++ ys) = renderWrap k xs ++ renderWrap (bump xs.length k) ys := by
  induction xs generalizing k with
  | nil => simp [renderWrap, bump]
  | cons m rest ih => simp [renderWrap, bump, ih]

theorem renderAt_append (xs ys : List Mapped) (k : Nat) :
    renderAt k (xs ++ ys) = renderAt k xs ++ renderAt (k + xs.length) ys := by
  induction xs generalizing k with
  | nil => simp [renderAt]
  | cons m rest ih =>
    have hk : k + 1 + rest.length = k + (rest.length + 1) := by omega
    show m.tokens k ++ renderAt (k + 1) (rest ++ ys) = _
    rw [ih, hk]
    simp [renderAt]

theorem bump_add (m n k : Nat) : bump n (bump m k) = bump (m + n) k := by
  induction m generalizing k with
  | zero => simp [bump]
  | succ m ih =>
    have : m + 1 + n = (m + n) + 1 := by omega
    rw [this, bump, bump, ih]

theorem languages_length_le (o : String) : (languages o).length ≤ 3 := by
  unfold languages
  split <;> split <;> simp

theorem videoPart_length_le (streams : List ParsedStream) (videoLang : String) :
    (videoPart streams videoLang).length ≤ 1 := by
  unfold videoPart
  cases firstVideo streams <;> simp

theorem audioPart_length_le (streams : List ParsedStream) (langs : List String) :
    (audioPart streams langs).length ≤ langs.length := by
  simp [audioPart, List.length_filterMap_le]

theorem subtitlePart_length_le (streams : List ParsedStream) (langs : List String) :
    (subtitlePart streams langs).length ≤ langs.length := by
  simp [subtitlePart, List.length_filterMap_le]

theorem selection_length_le (streams : List ParsedStream) (videoLang : String) :
    (selection streams videoLang).length ≤ 7 := by
  have h1 := videoPart_length_le streams videoLang
  have h2 := audioPart_length_le streams (languages (origLangAfterVideo streams videoLang))
  have h3 := subtitlePart_length_le streams (languages (origLangAfterVideo streams videoLang))
  have h4 := languages_length_le (origLangAfterVideo streams videoLang)
  simp only [selection, List.length_append]
  omega

/-! ## The body of `mux` in closed form -/

theorem videoLoop_init (streams : List ParsedStream) (source videoLang : String) :
    videoLoop streams
        { output := initOutput source, streamIndex := 0, origLang := videoLang, stderr := [] } =
      { output := initOutput source ++ renderWrap 0 (videoPart streams videoLang)
        streamIndex := bump (videoPart streams videoLang).length 0
        origLang := origLangAfterVideo streams videoLang
        stderr := warnings streams videoLang } := by
  cases h : firstVideo streams with
  | none =>
    rw [videoLoop_of_none _ _ h]
    simp [videoPart, origLangAfterVideo, warnings, h, renderWrap, bump]
  | some s =>
    rw [videoLoop_of_some _ _ s h]
    simp [videoPart, origLangAfterVideo, warnings, h, renderWrap, bump]

theorem muxBody_eq_wrap (movie : ParsedMovie) (source target videoLang : String) :
    muxBody movie source target videoLang =
      { output := initOutput source ++ renderWrap 0 (selection movie.Streams videoLang) ++
          [fmtQuote target]
        streamIndex := bump (selection movie.Streams videoLang).length 0
        origLang := origLangAfterVideo movie.Streams videoLang
        stderr := warnings movie.Streams videoLang } := by
  simp only [muxBody, videoLoop_init, audioLoop_eq, subtitleLoop_eq, selection,
    renderWrap_append, bump_add, List.length_append, List.append_assoc, Nat.add_assoc]

theorem muxBody_eq (movie : ParsedMovie) (source target videoLang : String) :
    muxBody movie source target videoLang =
      { output := initOutput source ++ renderAt 0 (selection movie.Streams videoLang) ++
          [fmtQuote target]
        streamIndex := (selection movie.Streams videoLang).length
        origLang := origLangAfterVideo movie.Streams videoLang
        stderr := warnings movie.Streams videoLang } := by
  have hlen := selection_length_le movie.Streams videoLang
  rw [muxBody_eq_wrap, renderWrap_eq_renderAt _ _ (by omega), bump_eq_add _ _ (by omega)]
  simp

theorem muxBody_output (movie : ParsedMovie) (source target videoLang : String) :
    (muxBody movie source target videoLang).output =
      initOutput source ++ renderAt 0 (selection movie.Streams videoLang) ++
        [fmtQuote target] := by
  rw [muxBody_eq]

/-! ## First matches, spelled out -/

theorem firstVideo_eq_some_iff (streams : List ParsedStream) (s : ParsedStream) :
    firstVideo streams = some s ↔
      s.CodecType = "video" ∧
        ∃ pre post, streams = pre ++ s :: post ∧ ∀ t ∈ pre, t.CodecType ≠ "video" := by
  simp [firstVideo, List.find?_eq_some, isVideo]

theorem firstVideo_eq_none_iff (streams : List ParsedStream) :
    firstVideo streams = none ↔ ∀ t ∈ streams, t.CodecType ≠ "video" := by
  simp [firstVideo, List.find?_eq_none, isVideo]

theorem firstAudio_eq_some_iff (streams : List ParsedStream) (lang : String) (s : ParsedStream) :
    firstAudio streams lang = some s ↔
      (s.CodecType = "audio" ∧ s.Tags.Language = lang ∧ s.Channels ≤ 6) ∧
        ∃ pre post, streams = pre ++ s :: post ∧
          ∀ t ∈ pre, ¬ (t.CodecType = "audio" ∧ t.Tags.Language = lang ∧ t.Channels ≤ 6) := by
  simp only [firstAudio, List.find?_eq_some, isAudioFor, decide_eq_true_eq,
    Bool.not_eq_true', decide_eq_false_iff_not]

theorem firstAudio_eq_none_iff (streams : List ParsedStream) (lang : String) :
    firstAudio streams lang = none ↔
      ∀ t ∈ streams, ¬ (t.CodecType = "audio" ∧ t.Tags.Language = lang ∧ t.Channels ≤ 6) := by
  simp [firstAudio, List.find?_eq_none, isAudioFor]

theorem firstSubtitle_eq_some_iff (streams : List ParsedStream) (lang : String)
    (s : ParsedStream) :
    firstSubtitle streams lang = some s ↔
      (s.CodecType = "subtitle" ∧ s.Tags.Language = lang) ∧
        ∃ pre post, streams = pre ++ s :: post ∧
          ∀ t ∈ pre, ¬ (t.CodecType = "subtitle" ∧ t.Tags.Language = lang) := by
  simp only [firstSubtitle, List.find?_eq_some, isSubtitleFor, decide_eq_true_eq,
    Bool.not_eq_true', decide_eq_false_iff_not]

theorem firstSubtitle_eq_none_iff (streams : List ParsedStream) (lang : String) :
    firstSubtitle streams lang = none ↔
      ∀ t ∈ streams, ¬ (t.CodecType = "subtitle" ∧ t.Tags.Language = lang) := by
  simp [firstSubtitle, List.find?_eq_none, isSubtitleFor]

/-! ## What each part of the selection contains -/

theorem videoPart_eq_of_some (streams : List ParsedStream) (videoLang : String)
    (s : ParsedStream) (h : firstVideo streams = some s) :
    videoPart streams videoLang = [Mapped.video s (pickLang videoLang s)] := by
  simp [videoPart, h]

theorem videoPart_eq_of_none (streams : List ParsedStream) (videoLang : String)
    (h : firstVideo streams = none) : videoPart streams videoLang = [] := by
  simp [videoPart, h]

theorem videoPart_codecType (streams : List ParsedStream) (videoLang : String) (m : Mapped)
    (hm : m ∈ videoPart streams videoLang) : m.stream.CodecType = "video" := by
  cases h : firstVideo streams with
  | none => simp [videoPart_eq_of_none _ _ h] at hm
  | some s =>
    rw [videoPart_eq_of_some _ _ s h, List.mem_singleton] at hm
    subst hm
    exact ((firstVideo_eq_some_iff _ _).1 h).1

theorem audioPart_mem (streams : List ParsedStream) (langs : List String) (m : Mapped)
    (hm : m ∈ audioPart streams langs) :
    ∃ L ∈ langs, ∃ s, m = Mapped.audio s ∧ firstAudio streams L = some s := by
  simp only [audioPart, List.mem_map, List.mem_filterMap] at hm
  obtain ⟨s, ⟨L, hL, hs⟩, rfl⟩ := hm
  exact ⟨L, hL, s, rfl, hs⟩

theorem subtitlePart_mem (streams : List ParsedStream) (langs : List String) (m : Mapped)
    (hm : m ∈ subtitlePart streams langs) :
    ∃ L ∈ langs, ∃ s, m = Mapped.subtitle s ∧ firstSubtitle streams L = some s := by
  simp only [subtitlePart, List.mem_map, List.mem_filterMap] at hm
  obtain ⟨s, ⟨L, hL, hs⟩, rfl⟩ := hm
  exact ⟨L, hL, s, rfl, hs⟩

theorem audioPart_codecType (streams : List ParsedStream) (langs : List String) (m : Mapped)
    (hm : m ∈ audioPart streams langs) :
    m.stream.CodecType = "audio" ∧ m.stream.Channels ≤ 6 ∧ m.stream.Tags.Language ∈ langs := by
  obtain ⟨L, hL, s, rfl, hs⟩ := audioPart_mem _ _ _ hm
  obtain ⟨⟨h1, h2, h3⟩, -⟩ := (firstAudio_eq_some_iff _ _ _).1 hs
  exact ⟨h1, h3, by simpa [Mapped.stream, h2] using hL⟩

theorem subtitlePart_codecType (streams : List ParsedStream) (langs : List String) (m : Mapped)
    (hm : m ∈ subtitlePart streams langs) :
    m.stream.CodecType = "subtitle" ∧ m.stream.Tags.Language ∈ langs := by
  obtain ⟨L, hL, s, rfl, hs⟩ := subtitlePart_mem _ _ _ hm
  obtain ⟨⟨h1, h2⟩, -⟩ := (firstSubtitle_eq_some_iff _ _ _).1 hs
  exact ⟨h1, by simpa [Mapped.stream, h2] using hL⟩

theorem filter_eq_self_of_nodup (langs : List String) (L : String) (hn : langs.Nodup)
    (hL : L ∈ langs) : langs.filter (fun x => decide (x = L)) = [L] := by
  rw [List.filter_eq, List.count_eq_one_of_mem hn hL]
  rfl

theorem languages_nodup (o : String) : (languages o).Nodup := by
  by_cases h1 : o = "rus"
  · subst h1
    decide
  · by_cases h2 : o = "eng"
    · subst h2
      decide
    · have h1' : ¬ "rus" = o := fun h => h1 h.symm
      simp [languages, TargetLang, DefaultOrigLang, h1, h2, h1']

theorem audioPart_cons (streams : List ParsedStream) (l : String) (rest : List String) :
    audioPart streams (l :: rest) =
      (firstAudio streams l).toList.map Mapped.audio ++ audioPart streams rest := by
  cases h : firstAudio streams l <;> simp [audioPart, List.filterMap_cons, h]

theorem subtitlePart_cons (streams : List ParsedStream) (l : String) (rest : List String) :
    subtitlePart streams (l :: rest) =
      (firstSubtitle streams l).toList.map Mapped.subtitle ++ subtitlePart streams rest := by
  cases h : firstSubtitle streams l <;> simp [subtitlePart, List.filterMap_cons, h]

theorem audioPart_filter (streams : List ParsedStream) (langs : List String) (L : String) :
    (audioPart streams langs).filter
        (fun m => decide (m.stream.CodecType = "audio" ∧ m.stream.Tags.Language = L)) =
      audioPart streams (langs.filter (fun x => decide (x = L))) := by
  induction langs with
  | nil => rfl
  | cons l rest ih =>
    cases h : firstAudio streams l with
    | none =>
      have hL : audioPart streams (l :: rest) = audioPart streams rest := by
        rw [audioPart_cons, h]; rfl
      rw [hL, ih]
      by_cases hl : l = L
      · rw [List.filter_cons_of_pos (by simp [hl]), audioPart_cons, h]; rfl
      · rw [List.filter_cons_of_neg (by simp [hl])]
    | some s =>
      obtain ⟨⟨h1, h2, -⟩, -⟩ := (firstAudio_eq_some_iff _ _ _).1 h
      have hL : audioPart streams (l :: rest) = Mapped.audio s :: audioPart streams rest := by
        rw [audioPart_cons, h]; rfl
      rw [hL]
      by_cases hl : l = L
      · rw [List.filter_cons_of_pos (by simp [Mapped.stream, h1, h2, hl]), ih,
          List.filter_cons_of_pos (by simp [hl]), audioPart_cons, h]; rfl
      · rw [List.filter_cons_of_neg (by simp [Mapped.stream, h2, hl]), ih,
          List.filter_cons_of_neg (by simp [hl])]

theorem subtitlePart_filter (streams : List ParsedStream) (langs : List String) (L : String) :
    (subtitlePart streams langs).filter
        (fun m => decide (m.stream.CodecType = "subtitle" ∧ m.stream.Tags.Language = L)) =
      subtitlePart streams (langs.filter (fun x => decide (x = L))) := by
  induction langs with
  | nil => rfl
  | cons l rest ih =>
    cases h : firstSubtitle streams l with
    | none =>
      have hL : subtitlePart streams (l :: rest) = subtitlePart streams rest := by
        rw [subtitlePart_cons, h]; rfl
      rw [hL, ih]
      by_cases hl : l = L
      · rw [List.filter_cons_of_pos (by simp [hl]), subtitlePart_cons, h]; rfl
      · rw [List.filter_cons_of_neg (by simp [hl])]
    | some s =>
      obtain ⟨⟨h1, h2⟩, -⟩ := (firstSubtitle_eq_some_iff _ _ _).1 h
      have hL : subtitlePart streams (l :: rest) =
          Mapped.subtitle s :: subtitlePart streams rest := by
        rw [subtitlePart_cons, h]; rfl
      rw [hL]
      by_cases hl : l = L
      · rw [List.filter_cons_of_pos (by simp [Mapped.stream, h1, h2, hl]), ih,
          List.filter_cons_of_pos (by simp [hl]), subtitlePart_cons, h]; rfl
      · rw [List.filter_cons_of_neg (by simp [Mapped.stream, h2, hl]), ih,
          List.filter_cons_of_neg (by simp [hl])]

theorem filter_eq_nil_of_codecType (ms : List Mapped) (ty other L : String) (hne : ty ≠ other)
    (h : ∀ m ∈ ms, m.stream.CodecType = ty) :
    ms.filter (fun m => decide (m.stream.CodecType = other ∧ m.stream.Tags.Language = L)) =
      [] := by
  rw [List.filter_eq_nil_iff]
  intro m hm hp
  simp only [decide_eq_true_eq] at hp
  exact hne ((h m hm).symm.trans hp.1)

theorem selection_filter_audio (streams : List ParsedStream) (videoLang L : String)
    (hL : L ∈ languages (origLangAfterVideo streams videoLang)) :
    (selection streams videoLang).filter
        (fun m => decide (m.stream.CodecType = "audio" ∧ m.stream.Tags.Language = L)) =
      (firstAudio streams L).toList.map Mapped.audio := by
  have hv := filter_eq_nil_of_codecType (videoPart streams videoLang) "video" "audio" L
    (by decide) (videoPart_codecType streams videoLang)
  have hs := filter_eq_nil_of_codecType
    (subtitlePart streams (languages (origLangAfterVideo streams videoLang)))
    "subtitle" "audio" L (by decide) (fun m hm => (subtitlePart_codecType _ _ m hm).1)
  simp only [selection, List.filter_append, hv, hs, audioPart_filter,
    filter_eq_self_of_nodup _ L (languages_nodup _) hL, List.nil_append, List.append_nil]
  rw [audioPart_cons]
  simp [audioPart]

theorem selection_filter_subtitle (streams : List ParsedStream) (videoLang L : String)
    (hL : L ∈ languages (origLangAfterVideo streams videoLang)) :
    (selection streams videoLang).filter
        (fun m => decide (m.stream.CodecType = "subtitle" ∧ m.stream.Tags.Language = L)) =
      (firstSubtitle streams L).toList.map Mapped.subtitle := by
  have hv := filter_eq_nil_of_codecType (videoPart streams videoLang) "video" "subtitle" L
    (by decide) (videoPart_codecType streams videoLang)
  have ha := filter_eq_nil_of_codecType
    (audioPart streams (languages (origLangAfterVideo streams videoLang)))
    "audio" "subtitle" L (by decide) (fun m hm => (audioPart_codecType _ _ m hm).1)
  simp only [selection, List.filter_append, hv, ha, subtitlePart_filter,
    filter_eq_self_of_nodup _ L (languages_nodup _) hL, List.nil_append, List.append_nil]
  rw [subtitlePart_cons]
  simp [subtitlePart]

theorem selection_filter_video (streams : List ParsedStream) (videoLang : String) :
    (selection streams videoLang).filter (fun m => decide (m.stream.CodecType = "video")) =
      videoPart streams videoLang := by
  have hv : (videoPart streams videoLang).filter
      (fun m => decide (m.stream.CodecType = "video")) = videoPart streams videoLang := by
    rw [List.filter_eq_self]
    intro m hm
    simp [videoPart_codecType streams videoLang m hm]
  have ha : (audioPart streams (languages (origLangAfterVideo streams videoLang))).filter
      (fun m => decide (m.stream.CodecType = "video")) = [] := by
    rw [List.filter_eq_nil_iff]
    intro m hm
    simp [(audioPart_codecType _ _ m hm).1]
  have hs : (subtitlePart streams (languages (origLangAfterVideo streams videoLang))).filter
      (fun m => decide (m.stream.CodecType = "video")) = [] := by
    rw [List.filter_eq_nil_iff]
    intro m hm
    simp [(subtitlePart_codecType _ _ m hm).1]
  simp only [selection, List.filter_append, hv, ha, hs, List.append_nil]

theorem muxBody_origLang (movie : ParsedMovie) (source target videoLang : String) :
    (muxBody movie source target videoLang).origLang =
      origLangAfterVideo movie.Streams videoLang := by
  rw [muxBody_eq]

theorem renderAt_eq_enumFrom (ms : List Mapped) (k : Nat) :
    renderAt k ms = (ms.enumFrom k).flatMap (fun p => p.2.tokens p.1) := by
  induction ms generalizing k with
  | nil => rfl
  | cons m rest ih => simp [renderAt, List.enumFrom_cons, List.flatMap_cons, ih]

theorem selection_eq_flatMap (streams : List ParsedStream) (videoLang : String) :
    selection streams videoLang =
      (firstVideo streams).toList.map
          (fun s => Mapped.video s (origLangAfterVideo streams videoLang)) ++
        (languages (origLangAfterVideo streams videoLang)).flatMap
          (fun L => (firstAudio streams L).toList.map Mapped.audio) ++
        (languages (origLangAfterVideo streams videoLang)).flatMap
          (fun L => (firstSubtitle streams L).toList.map Mapped.subtitle) := by
  have hv : videoPart streams videoLang =
      (firstVideo streams).toList.map
        (fun s => Mapped.video s (origLangAfterVideo streams videoLang)) := by
    cases h : firstVideo streams <;> simp [videoPart, origLangAfterVideo, h]
  have ha : ∀ langs : List String, audioPart streams langs =
      langs.flatMap (fun L => (firstAudio streams L).toList.map Mapped.audio) := by
    intro langs
    induction langs with
    | nil => rfl
    | cons l rest ih => rw [audioPart_cons, ih, List.flatMap_cons]
  have hs : ∀ langs : List String, subtitlePart streams langs =
      langs.flatMap (fun L => (firstSubtitle streams L).toList.map Mapped.subtitle) := by
    intro langs
    induction langs with
    | nil => rfl
    | cons l rest ih => rw [subtitlePart_cons, ih, List.flatMap_cons]
  rw [selection, hv, ha, hs]

/-! ## Joining tokens with spaces -/

theorem foldl_append_eq (l : List String) (acc : String) :
    l.foldl (fun r s => r ++ s) acc = acc ++ String.join l := by
  induction l generalizing acc with
  | nil => simp [String.join]
  | cons a t ih =>
    simp only [List.foldl_cons, String.join]
    rw [ih, ih ("" ++ a)]
    simp [String.append_assoc]

theorem join_cons (a : String) (l : List String) :
    String.join (a :: l) = a ++ String.join l := by
  show List.foldl (fun r s => r ++ s) ("" ++ a) l = a ++ String.join l
  rw [foldl_append_eq, String.empty_append]

theorem join_append (xs ys : List String) :
    String.join (xs ++ ys) = String.join xs ++ String.join ys := by
  induction xs with
  | nil => simp [String.join]
  | cons a t ih => simp [join_cons, ih, String.append_assoc]

theorem intercalate_go_eq (acc sep : String) (l : List String) :
    String.intercalate.go acc sep l = acc ++ String.join (l.map (fun t => sep ++ t)) := by
  induction l generalizing acc with
  | nil => simp [String.intercalate.go, String.join]
  | cons a t ih =>
    simp only [String.intercalate.go, List.map_cons]
    rw [ih, join_cons]
    simp [String.append_assoc]

theorem intercalate_initOutput (source target : String) (mid : List String) :
    String.intercalate " " (initOutput source ++ mid ++ [fmtQuote target]) =
      "ffmpeg -fflags +genpts -i \"" ++ source ++
        "\" -map_chapters -1 -map_metadata -1 -default_mode infer_no_subs" ++
        String.join (mid.map (fun t => " " ++ t)) ++ " \"" ++ target ++ "\"" := by
  simp only [initOutput, fmtQuote, List.cons_append, List.nil_append, String.intercalate,
    intercalate_go_eq, List.map_cons, List.map_append, join_cons, join_append, List.map_nil]
  apply String.ext
  simp [String.data_append]

theorem selection_filter_audioType (streams : List ParsedStream) (videoLang : String) :
    (selection streams videoLang).filter (fun m => decide (m.stream.CodecType = "audio")) =
      audioPart streams (languages (origLangAfterVideo streams videoLang)) := by
  have hv : (videoPart streams videoLang).filter
      (fun m => decide (m.stream.CodecType = "audio")) = [] := by
    rw [List.filter_eq_nil_iff]
    intro m hm
    simp [videoPart_codecType streams videoLang m hm]
  have ha : (audioPart streams (languages (origLangAfterVideo streams videoLang))).filter
      (fun m => decide (m.stream.CodecType = "audio")) =
      audioPart streams (languages (origLangAfterVideo streams videoLang)) := by
    rw [List.filter_eq_self]
    intro m hm
    simp [(audioPart_codecType _ _ m hm).1]
  have hs : (subtitlePart streams (languages (origLangAfterVideo streams videoLang))).filter
      (fun m => decide (m.stream.CodecType = "audio")) = [] := by
    rw [List.filter_eq_nil_iff]
    intro m hm
    simp [(subtitlePart_codecType _ _ m hm).1]
  simp only [selection, List.filter_append, hv, ha, hs, List.append_nil, List.nil_append]

theorem selection_filter_subtitleType (streams : List ParsedStream) (videoLang : String) :
    (selection streams videoLang).filter (fun m => decide (m.stream.CodecType = "subtitle")) =
      subtitlePart streams (languages (origLangAfterVideo streams videoLang)) := by
  have hv : (videoPart streams videoLang).filter
      (fun m => decide (m.stream.CodecType = "subtitle")) = [] := by
    rw [List.filter_eq_nil_iff]
    intro m hm
    simp [videoPart_codecType streams videoLang m hm]
  have ha : (audioPart streams (languages (origLangAfterVideo streams videoLang))).filter
      (fun m => decide (m.stream.CodecType = "subtitle")) = [] := by
    rw [List.filter_eq_nil_iff]
    intro m hm
    simp [(audioPart_codecType _ _ m hm).1]
  have hs : (subtitlePart streams (languages (origLangAfterVideo streams videoLang))).filter
      (fun m => decide (m.stream.CodecType = "subtitle")) =
      subtitlePart streams (languages (origLangAfterVideo streams videoLang)) := by
    rw [List.filter_eq_self]
    intro m hm
    simp [(subtitlePart_codecType _ _ m hm).1]
  simp only [selection, List.filter_append, hv, ha, hs, List.append_nil, List.nil_append]

theorem selection_stream_mem (streams : List ParsedStream) (videoLang : String) (m : Mapped)
    (hm : m ∈ selection streams videoLang) : m.stream ∈ streams := by
  simp only [selection, List.mem_append] at hm
  rcases hm with (hm | hm) | hm
  · cases h : firstVideo streams with
    | none => simp [videoPart_eq_of_none _ _ h] at hm
    | some s =>
      rw [videoPart_eq_of_some _ _ s h, List.mem_singleton] at hm
      subst hm
      exact List.mem_of_find?_eq_some h
  · obtain ⟨L, -, s, rfl, hs⟩ := audioPart_mem _ _ m hm
    exact List.mem_of_find?_eq_some hs
  · obtain ⟨L, -, s, rfl, hs⟩ := subtitlePart_mem _ _ m hm
    exact List.mem_of_find?_eq_some hs

/-! ## Decimal formatting is injective -/

theorem digitChar_value (k : Nat) (h : k < 10) : (Nat.digitChar k).toNat - 48 = k := by
  interval_cases k <;> rfl

theorem toDigitsCore_value (fuel : Nat) : ∀ (n : Nat) (ds : List Char), n < fuel →
    (Nat.toDigitsCore 10 fuel n ds).foldl (fun acc c => acc * 10 + (c.toNat - 48)) 0 =
      ds.foldl (fun acc c => acc * 10 + (c.toNat - 48)) n := by
  induction fuel with
  | zero => intro n ds h; omega
  | succ fuel ih =>
    intro n ds h
    by_cases h0 : n / 10 = 0
    · have hn : n < 10 := by omega
      simp only [Nat.toDigitsCore, h0, if_true, List.foldl_cons, Nat.zero_mul, Nat.zero_add]
      rw [digitChar_value _ (Nat.mod_lt _ (by omega)), Nat.mod_eq_of_lt hn]
    · simp only [Nat.toDigitsCore, h0, if_false]
      rw [ih (n / 10) _ (by omega)]
      simp only [List.foldl_cons]
      rw [digitChar_value _ (Nat.mod_lt _ (by omega))]
      congr 1
      omega

theorem digitsValue_toDigits (n : Nat) : digitsValue (Nat.toDigits 10 n) = n := by
  unfold digitsValue Nat.toDigits
  rw [toDigitsCore_value _ _ _ (Nat.lt_succ_self n)]
  rfl

theorem nat_toString_injective (m n : Nat) (h : toString m = toString n) : m = n := by
  have hd : Nat.toDigits 10 m = Nat.toDigits 10 n := by
    have := congrArg String.data h
    exact this
  have := congrArg digitsValue hd
  rwa [digitsValue_toDigits, digitsValue_toDigits] at this

theorem int_toString_injective (i j : Int) (h : toString i = toString j) : i = j := by
  have hneg : ∀ (m n : Nat), toString (Int.ofNat m) = toString (Int.negSucc n) → False := by
    intro m n hmn
    have hd : Nat.toDigits 10 m = '-' :: Nat.toDigits 10 (n + 1) := congrArg String.data hmn
    have hv := congrArg digitsValue hd
    have hcons : digitsValue ('-' :: Nat.toDigits 10 (n + 1)) =
        digitsValue (Nat.toDigits 10 (n + 1)) := rfl
    rw [hcons, digitsValue_toDigits, digitsValue_toDigits] at hv
    subst hv
    have hl := congrArg List.length hd
    simp at hl
  cases i with
  | ofNat m =>
    cases j with
    | ofNat n =>
      have : toString m = toString n := h
      rw [nat_toString_injective m n this]
    | negSucc n => exact absurd h (fun h => hneg m n h)
  | negSucc m =>
    cases j with
    | ofNat n => exact absurd h.symm (fun h => hneg n m h)
    | negSucc n =>
      have hd : '-' :: Nat.toDigits 10 (m + 1) = '-' :: Nat.toDigits 10 (n + 1) :=
        congrArg String.data h
      have hd2 : Nat.toDigits 10 (m + 1) = Nat.toDigits 10 (n + 1) := List.tail_eq_of_cons_eq hd
      have := congrArg digitsValue hd2
      rw [digitsValue_toDigits, digitsValue_toDigits] at this
      have hmn : m = n := by omega
      rw [hmn]

theorem fmtMap_injective (i j : Int) (h : fmtMap i = fmtMap j) : i = j := by
  apply int_toString_injective
  have hd := congrArg String.data h
  simp only [fmtMap, String.data_append, List.append_cancel_left_eq] at hd
  exact String.ext hd

/-! ## The `-map` tokens of a command -/

theorem mapArgs_skip (t : String) (l : List String) (ht : t ≠ "-map") :
    mapArgs (t :: l) = mapArgs l := by
  cases l with
  | nil => rfl
  | cons a rest => simp [mapArgs, ht]

theorem mapArgs_take (a : String) (l : List String) :
    mapArgs ("-map" :: a :: l) = a :: mapArgs l := by
  simp [mapArgs]

theorem mapArgs_skip_all (l rest : List String) (hl : ∀ t ∈ l, t ≠ "-map") :
    mapArgs (l ++ rest) = mapArgs rest := by
  induction l with
  | nil => rfl
  | cons t l ih =>
    rw [List.cons_append, mapArgs_skip _ _ (hl t (List.mem_cons_self _ _))]
    exact ih (fun u hu => hl u (List.mem_cons_of_mem _ hu))

theorem fmtCodec_ne_map (k : Nat) : fmtCodec k ≠ "-map" := by
  intro h
  have := congrArg String.data h
  simp [fmtCodec] at this

theorem fmtBitrate_ne_map (k : Nat) : fmtBitrate k ≠ "-map" := by
  intro h
  have := congrArg String.data h
  simp [fmtBitrate] at this

theorem fmtMeta_ne_map (k : Nat) : fmtMeta k ≠ "-map" := by
  intro h
  have := congrArg String.data h
  simp [fmtMeta] at this

theorem fmtLang_ne_map (l : String) : fmtLang l ≠ "-map" := by
  intro h
  have := congrArg String.data h
  simp [fmtLang] at this

theorem fmtQuote_ne_map (p : String) : fmtQuote p ≠ "-map" := by
  intro h
  have := congrArg String.data h
  simp [fmtQuote] at this

theorem tokens_eq_map_cons (m : Mapped) (k : Nat) :
    ∃ tail, m.tokens k = "-map" :: fmtMap m.stream.Index :: tail ∧
      ∀ t ∈ tail, t ≠ "-map" := by
  have hcopy : "copy" ≠ "-map" := by decide
  have hac3 : "ac3" ≠ "-map" := by decide
  have h640 : "640k" ≠ "-map" := by decide
  cases m with
  | video s lang =>
    refine ⟨[fmtCodec k, "copy", fmtMeta k, fmtLang lang], rfl, ?_⟩
    intro t ht
    simp only [List.mem_cons, List.mem_singleton, List.not_mem_nil, or_false] at ht
    rcases ht with rfl | rfl | rfl | rfl
    · exact fmtCodec_ne_map k
    · exact hcopy
    · exact fmtMeta_ne_map k
    · exact fmtLang_ne_map lang
  | audio s =>
    by_cases h : s.CodecName = "ac3" ∨ s.CodecName = "eac3" ∨ s.CodecName = "aac"
    · refine ⟨[fmtCodec k, "copy", fmtMeta k, fmtLang s.Tags.Language], ?_, ?_⟩
      · simp [Mapped.tokens, Mapped.stream, addAudioStream, h]
      · intro t ht
        simp only [List.mem_cons, List.mem_singleton, List.not_mem_nil, or_false] at ht
        rcases ht with rfl | rfl | rfl | rfl
        · exact fmtCodec_ne_map k
        · exact hcopy
        · exact fmtMeta_ne_map k
        · exact fmtLang_ne_map _
    · refine ⟨[fmtCodec k, "ac3", fmtBitrate k, "640k", fmtMeta k,
        fmtLang s.Tags.Language], ?_, ?_⟩
      · simp [Mapped.tokens, Mapped.stream, addAudioStream, h]
      · intro t ht
        simp only [List.mem_cons, List.mem_singleton, List.not_mem_nil, or_false] at ht
        rcases ht with rfl | rfl | rfl | rfl | rfl | rfl
        · exact fmtCodec_ne_map k
        · exact hac3
        · exact fmtBitrate_ne_map k
        · exact h640
        · exact fmtMeta_ne_map k
        · exact fmtLang_ne_map _
  | subtitle s =>
    refine ⟨[fmtCodec k, "copy", fmtMeta k, fmtLang s.Tags.Language], rfl, ?_⟩
    intro t ht
    simp only [List.mem_cons, List.mem_singleton, List.not_mem_nil, or_false] at ht
    rcases ht with rfl | rfl | rfl | rfl
    · exact fmtCodec_ne_map k
    · exact hcopy
    · exact fmtMeta_ne_map k
    · exact fmtLang_ne_map _

theorem mapArgs_renderAt (ms : List Mapped) (k : Nat) (rest : List String) :
    mapArgs (renderAt k ms ++ rest) =
      ms.map (fun m => fmtMap m.stream.Index) ++ mapArgs rest := by
  induction ms generalizing k with
  | nil => rfl
  | cons m ms ih =>
    obtain ⟨tail, htok, htail⟩ := tokens_eq_map_cons m k
    rw [renderAt, htok]
    simp only [List.cons_append, List.append_assoc, List.map_cons]
    rw [mapArgs_take, mapArgs_skip_all _ _ htail, ih]

theorem mapArgs_muxBody (movie : ParsedMovie) (source target videoLang : String) :
    mapArgs (muxBody movie source target videoLang).output =
      (selection movie.Streams videoLang).map (fun m => fmtMap m.stream.Index) := by
  have hinit : ∀ t ∈ initOutput source, t ≠ "-map" := by
    intro t ht
    simp only [initOutput, List.mem_cons, List.mem_singleton, List.not_mem_nil,
      or_false] at ht
    rcases ht with rfl | rfl | rfl | rfl | rfl | rfl | rfl | rfl | rfl | rfl | rfl
    all_goals first
      | exact fmtQuote_ne_map source
      | decide
  rw [muxBody_output, List.append_assoc, mapArgs_skip_all _ _ hinit, mapArgs_renderAt]
  simp [mapArgs]

/-! ## Positions of the mapped streams -/

theorem firstIdx_eq_none {α : Type} (p : α → Bool) (l : List α) (h : firstIdx p l = none) :
    l.find? p = none := by
  induction l with
  | nil => rfl
  | cons a l ih =>
    by_cases ha : p a = true
    · simp [firstIdx, ha] at h
    · have hrest : firstIdx p l = none := by simpa [firstIdx, ha] using h
      simp [List.find?_cons, ha, ih hrest]

theorem firstIdx_eq_some {α : Type} (p : α → Bool) (l : List α) (i : Nat)
    (h : firstIdx p l = some i) :
    ∃ s, l[i]? = some s ∧ l.find? p = some s ∧ ∀ j < i, ∀ t, l[j]? = some t → p t = false := by
  induction l generalizing i with
  | nil => simp [firstIdx] at h
  | cons a l ih =>
    by_cases ha : p a = true
    · have hi : i = 0 := by
        have : some 0 = some i := by simpa [firstIdx, ha] using h
        exact (Option.some.inj this).symm
      subst hi
      exact ⟨a, by simp, by simp [List.find?_cons, ha],
        fun j hj => absurd hj (Nat.not_lt_zero j)⟩
    · have hmap : (firstIdx p l).map (fun i => i + 1) = some i := by
        simpa [firstIdx, ha] using h
      cases hr : firstIdx p l with
      | none => simp [hr] at hmap
      | some i0 =>
        have hi : i = i0 + 1 := by
          rw [hr] at hmap
          exact (Option.some.inj hmap).symm
        subst hi
        obtain ⟨s, hget, hfind, hbefore⟩ := ih i0 hr
        refine ⟨s, by simpa using hget, by simp [List.find?_cons, ha, hfind], ?_⟩
        intro j hj t ht
        cases j with
        | zero =>
          have : a = t := by simpa using ht
          rw [← this]
          simpa using ha
        | succ j => exact hbefore j (by omega) t (by simpa using ht)

theorem positions_filterMap (streams : List ParsedStream) (q : String → ParsedStream → Bool)
    (langs : List String) :
    (langs.filterMap (fun L => firstIdx (q L) streams)).map (fun i => streams[i]?) =
      (langs.filterMap (fun L => streams.find? (q L))).map some := by
  induction langs with
  | nil => rfl
  | cons L rest ih =>
    cases h : firstIdx (q L) streams with
    | none =>
      have hf := firstIdx_eq_none _ _ h
      simp only [List.filterMap_cons, h, hf]
      exact ih
    | some i =>
      obtain ⟨s, hget, hf, -⟩ := firstIdx_eq_some _ _ i h
      simp only [List.filterMap_cons, h, hf, List.map_cons, hget]
      rw [ih]

theorem positions_get (streams : List ParsedStream) (videoLang : String) :
    (positions streams videoLang).map (fun i => streams[i]?) =
      (selection streams videoLang).map (fun m => some m.stream) := by
  have hv : (firstIdx isVideo streams).toList.map (fun i => streams[i]?) =
      (videoPart streams videoLang).map (fun m => some m.stream) := by
    cases h : firstIdx isVideo streams with
    | none =>
      have hf : firstVideo streams = none := firstIdx_eq_none _ _ h
      simp [videoPart, hf]
    | some i =>
      obtain ⟨s, hget, hf, -⟩ := firstIdx_eq_some _ _ i h
      have hf2 : firstVideo streams = some s := hf
      simp [videoPart, hf2, hget, Mapped.stream]
  have ha : ∀ langs : List String,
      (langs.filterMap (fun L => firstIdx (isAudioFor L) streams)).map
          (fun i => streams[i]?) =
        (audioPart streams langs).map (fun m => some m.stream) := by
    intro langs
    rw [positions_filterMap streams isAudioFor langs]
    simp only [audioPart, List.map_map, Function.comp_def, Mapped.stream]
    rfl
  have hs : ∀ langs : List String,
      (langs.filterMap (fun L => firstIdx (isSubtitleFor L) streams)).map
          (fun i => streams[i]?) =
        (subtitlePart streams langs).map (fun m => some m.stream) := by
    intro langs
    rw [positions_filterMap streams isSubtitleFor langs]
    simp only [subtitlePart, List.map_map, Function.comp_def, Mapped.stream]
    rfl
  simp only [positions, selection, List.map_append, hv, ha, hs]

theorem selection_streams_nodup (streams : List ParsedStream) (videoLang : String) :
    ((selection streams videoLang).map Mapped.stream).Nodup := by
  have hV : ((videoPart streams videoLang).map Mapped.stream).Nodup := by
    cases h : firstVideo streams <;> simp [videoPart, h]
  have hA : ∀ langs : List String, langs.Nodup →
      ((audioPart streams langs).map Mapped.stream).Nodup := by
    intro langs hn
    have : (audioPart streams langs).map Mapped.stream =
        langs.filterMap (firstAudio streams) := by
      simp [audioPart, Mapped.stream, Function.comp_def]
    rw [this]
    refine List.Nodup.filterMap ?_ hn
    intro a a' b hb hb'
    have h1 := ((firstAudio_eq_some_iff _ _ _).1 (Option.mem_def.1 hb)).1.2.1
    have h2 := ((firstAudio_eq_some_iff _ _ _).1 (Option.mem_def.1 hb')).1.2.1
    rw [← h1, ← h2]
  have hS : ∀ langs : List String, langs.Nodup →
      ((subtitlePart streams langs).map Mapped.stream).Nodup := by
    intro langs hn
    have : (subtitlePart streams langs).map Mapped.stream =
        langs.filterMap (firstSubtitle streams) := by
      simp [subtitlePart, Mapped.stream, Function.comp_def]
    rw [this]
    refine List.Nodup.filterMap ?_ hn
    intro a a' b hb hb'
    have h1 := ((firstSubtitle_eq_some_iff _ _ _).1 (Option.mem_def.1 hb)).1.2
    have h2 := ((firstSubtitle_eq_some_iff _ _ _).1 (Option.mem_def.1 hb')).1.2
    rw [← h1, ← h2]
  have hn := languages_nodup (origLangAfterVideo streams videoLang)
  simp only [selection, List.map_append]
  refine List.Nodup.append (List.Nodup.append hV (hA _ hn) ?_) (hS _ hn) ?_
  · intro x hx hx'
    obtain ⟨m, hm, rfl⟩ := List.mem_map.1 hx
    obtain ⟨m', hm', he⟩ := List.mem_map.1 hx'
    have h1 := videoPart_codecType _ _ m hm
    have h2 := (audioPart_codecType _ _ m' hm').1
    rw [he, h1] at h2
    exact absurd h2 (by decide)
  · intro x hx hx'
    obtain ⟨m', hm', he⟩ := List.mem_map.1 hx'
    have h2 := (subtitlePart_codecType _ _ m' hm').1
    rw [he] at h2
    rcases List.mem_append.1 hx with hx | hx
    · obtain ⟨m, hm, rfl⟩ := List.mem_map.1 hx
      rw [videoPart_codecType _ _ m hm] at h2
      exact absurd h2 (by decide)
    · obtain ⟨m, hm, rfl⟩ := List.mem_map.1 hx
      rw [(audioPart_codecType _ _ m hm).1] at h2
      exact absurd h2 (by decide)

theorem positions_nodup (streams : List ParsedStream) (videoLang : String) :
    (positions streams videoLang).Nodup := by
  apply List.Nodup.of_map (fun i => streams[i]?)
  rw [positions_get]
  have h := (selection_streams_nodup streams videoLang).map (Option.some_injective _)
  simpa [List.map_map, Function.comp_def] using h

theorem selection_map_args_nodup (streams : List ParsedStream) (videoLang : String)
    (hidx : (streams.map (fun s => s.Index)).Nodup) :
    ((selection streams videoLang).map (fun m => fmtMap m.stream.Index)).Nodup := by
  have hinj := List.inj_on_of_nodup_map hidx
  have h := List.Nodup.map_on (f := fun s : ParsedStream => fmtMap s.Index)
    (l := (selection streams videoLang).map Mapped.stream) ?_
    (selection_streams_nodup streams videoLang)
  · simpa [List.map_map, Function.comp_def] using h
  · intro x hx y hy hxy
    obtain ⟨m, hm, rfl⟩ := List.mem_map.1 hx
    obtain ⟨m', hm', rfl⟩ := List.mem_map.1 hy
    exact hinj (selection_stream_mem _ _ m hm) (selection_stream_mem _ _ m' hm')
      (fmtMap_injective _ _ hxy)

/-! ## Properties of the program -/

/-- C1 (defect of the code): when the stream list has a video stream, `mux`
resolves the original language against the first one (the override if it is
not empty, else that stream's tag if it is not empty, else `eng`) and writes
the warning exactly in the last case; but when no stream has codec type
`video` the loop body never runs: the original language stays the override as
it came, empty included, no warning is written, and with an empty override
the priority list is `rus`, the empty string, `eng`. -/
theorem C1_original_language_resolution (movie : ParsedMovie)
    (source target videoLang : String) :
    (∀ s pre post, movie.Streams = pre ++ s :: post → s.CodecType = "video" →
      (∀ t ∈ pre, t.CodecType ≠ "video") →
      (muxBody movie source target videoLang).origLang =
          (if videoLang ≠ "" then videoLang
           else if s.Tags.Language ≠ "" then s.Tags.Language else "eng") ∧
        (muxBody movie source target videoLang).stderr =
          (if videoLang = "" ∧ s.Tags.Language = "" then [warnLine] else [])) ∧
    ((∀ t ∈ movie.Streams, t.CodecType ≠ "video") →
      (muxBody movie source target videoLang).origLang = videoLang ∧
        (muxBody movie source target videoLang).stderr = [] ∧
        (mux (fun _ => .ok movie) source target videoLang).stderr = [] ∧
        (videoLang = "" →
          languages (muxBody movie source target videoLang).origLang = ["rus", "", "eng"])) := by
  constructor
  · intro s pre post hsplit hs hpre
    have hv : firstVideo movie.Streams = some s :=
      (firstVideo_eq_some_iff _ _).2 ⟨hs, pre, post, hsplit, hpre⟩
    constructor
    · rw [muxBody_origLang]
      simp only [origLangAfterVideo, hv]
      rfl
    · rw [muxBody_eq]
      simp only [warnings, hv]
  · intro h
    have hv : firstVideo movie.Streams = none := (firstVideo_eq_none_iff _).2 h
    have h1 : (muxBody movie source target videoLang).origLang = videoLang := by
      rw [muxBody_eq]
      simp [origLangAfterVideo, hv]
    have h2 : (muxBody movie source target videoLang).stderr = [] := by
      rw [muxBody_eq]
      simp [warnings, hv]
    refine ⟨h1, h2, ?_, ?_⟩
    · simp only [mux, h2]
    · intro he
      rw [h1, he]
      decide

/-- C1 at a concrete input: for a container holding a single audio stream and
no override, the original language stays empty, nothing is written to the
diagnostic output, and the empty string enters the priority list. -/
theorem C1_original_language_resolution_witness :
    (∀ t ∈ audioOnlyMovie.Streams, t.CodecType ≠ "video") ∧
      (muxBody audioOnlyMovie "in.mka" "out.mka" "").origLang = "" ∧
      (muxBody audioOnlyMovie "in.mka" "out.mka" "").stderr = [] ∧
      (mux (fun _ => .ok audioOnlyMovie) "in.mka" "out.mka" "").stderr = [] ∧
      languages (muxBody audioOnlyMovie "in.mka" "out.mka" "").origLang = ["rus", "", "eng"] :=
  have h := (C1_original_language_resolution audioOnlyMovie "in.mka" "out.mka" "").2
    (by decide)
  ⟨by decide, h.1, h.2.1, h.2.2.1, h.2.2.2 rfl⟩

/-- C2: the command is the fixed prefix, the tokens of the mapped streams and
the quoted target; if some stream has codec type `video`, the mapped streams
of codec type `video` are exactly one, the first such stream of the list, and
its tokens start with `-map 0:<Index>`; if no stream has codec type `video`,
no video stream is mapped. -/
theorem C2_video_selection (movie : ParsedMovie) (source target videoLang : String) :
    (muxBody movie source target videoLang).output =
        initOutput source ++ renderAt 0 (selection movie.Streams videoLang) ++
          [fmtQuote target] ∧
    ((∃ t ∈ movie.Streams, t.CodecType = "video") →
      ∃ s pre post lang, movie.Streams = pre ++ s :: post ∧ s.CodecType = "video" ∧
        (∀ t ∈ pre, t.CodecType ≠ "video") ∧
        (selection movie.Streams videoLang).filter
            (fun m => decide (m.stream.CodecType = "video")) = [Mapped.video s lang] ∧
        ∀ k, ∃ rest, (Mapped.video s lang).tokens k =
          "-map" :: ("0:" ++ toString s.Index) :: rest) ∧
    ((∀ t ∈ movie.Streams, t.CodecType ≠ "video") →
      (selection movie.Streams videoLang).filter
          (fun m => decide (m.stream.CodecType = "video")) = []) := by
  refine ⟨muxBody_output movie source target videoLang, ?_, ?_⟩
  · rintro ⟨t, ht, htv⟩
    cases h : firstVideo movie.Streams with
    | none => exact absurd htv ((firstVideo_eq_none_iff _).1 h t ht)
    | some s =>
      obtain ⟨hs, pre, post, hsplit, hpre⟩ := (firstVideo_eq_some_iff _ _).1 h
      refine ⟨s, pre, post, pickLang videoLang s, hsplit, hs, hpre, ?_, ?_⟩
      · rw [selection_filter_video, videoPart_eq_of_some _ _ s h]
      · intro k
        exact ⟨_, rfl⟩
  · intro hno
    rw [selection_filter_video, videoPart_eq_of_none _ _ ((firstVideo_eq_none_iff _).2 hno)]

/-- C2 at a concrete input: the scenario container has a video stream, and the
command maps exactly that one. -/
theorem C2_video_selection_witness :
    (∃ t ∈ scenarioMovie.Streams, t.CodecType = "video") ∧
      ∃ s pre post lang, scenarioMovie.Streams = pre ++ s :: post ∧ s.CodecType = "video" ∧
        (∀ t ∈ pre, t.CodecType ≠ "video") ∧
        (selection scenarioMovie.Streams "").filter
            (fun m => decide (m.stream.CodecType = "video")) = [Mapped.video s lang] ∧
        ∀ k, ∃ rest, (Mapped.video s lang).tokens k =
          "-map" :: ("0:" ++ toString s.Index) :: rest :=
  ⟨⟨scenarioVideo, by decide, rfl⟩,
   (C2_video_selection scenarioMovie "in.mkv" "out.mkv" "").2.1 ⟨scenarioVideo, by decide, rfl⟩⟩

/-- C3: for every language `L` of the priority list, if some stream is an
audio stream tagged `L` with at most 6 channels, the mapped audio streams
tagged `L` are exactly one, the first such stream of the list; if there is
none, no audio stream tagged `L` is mapped and `mux` returns no error; every
mapped audio stream has at most 6 channels. -/
theorem C3_audio_selection (movie : ParsedMovie) (source target videoLang : String) :
    (muxBody movie source target videoLang).output =
        initOutput source ++ renderAt 0 (selection movie.Streams videoLang) ++
          [fmtQuote target] ∧
    (∀ L ∈ languages (muxBody movie source target videoLang).origLang,
      ((∃ t ∈ movie.Streams,
          t.CodecType = "audio" ∧ t.Tags.Language = L ∧ t.Channels ≤ 6) →
        ∃ s pre post, movie.Streams = pre ++ s :: post ∧
          (s.CodecType = "audio" ∧ s.Tags.Language = L ∧ s.Channels ≤ 6) ∧
          (∀ t ∈ pre, ¬ (t.CodecType = "audio" ∧ t.Tags.Language = L ∧ t.Channels ≤ 6)) ∧
          (selection movie.Streams videoLang).filter
              (fun m => decide (m.stream.CodecType = "audio" ∧ m.stream.Tags.Language = L)) =
            [Mapped.audio s]) ∧
      ((∀ t ∈ movie.Streams,
          ¬ (t.CodecType = "audio" ∧ t.Tags.Language = L ∧ t.Channels ≤ 6)) →
        (selection movie.Streams videoLang).filter
            (fun m => decide (m.stream.CodecType = "audio" ∧ m.stream.Tags.Language = L)) =
          [])) ∧
    (∀ m ∈ selection movie.Streams videoLang,
      m.stream.CodecType = "audio" → m.stream.Channels ≤ 6) ∧
    (∀ parse : String → Except String ParsedMovie, parse source = .ok movie →
      (mux parse source target videoLang).err = none) := by
  refine ⟨muxBody_output movie source target videoLang, ?_, ?_, ?_⟩
  · intro L hL
    rw [muxBody_origLang] at hL
    constructor
    · rintro ⟨t, ht, hta⟩
      cases h : firstAudio movie.Streams L with
      | none => exact absurd hta ((firstAudio_eq_none_iff _ _).1 h t ht)
      | some s =>
        obtain ⟨hs, pre, post, hsplit, hpre⟩ := (firstAudio_eq_some_iff _ _ _).1 h
        refine ⟨s, pre, post, hsplit, hs, hpre, ?_⟩
        rw [selection_filter_audio _ _ _ hL, h]
        rfl
    · intro hno
      rw [selection_filter_audio _ _ _ hL, (firstAudio_eq_none_iff _ _).2 hno]
      rfl
  · intro m hm hma
    simp only [selection, List.mem_append] at hm
    rcases hm with (hm | hm) | hm
    · rw [videoPart_codecType _ _ m hm] at hma
      exact absurd hma (by decide)
    · exact (audioPart_codecType _ _ m hm).2.1
    · rw [(subtitlePart_codecType _ _ m hm).1] at hma
      exact absurd hma (by decide)
  · intro parse hp
    simp [mux, hp]

/-- C3 at a concrete input: with the override `jpn` the scenario container
has an audio stream for `eng`, which is mapped, and none for `jpn`. -/
theorem C3_audio_selection_witness :
    (∃ s pre post, scenarioMovie.Streams = pre ++ s :: post ∧
        (s.CodecType = "audio" ∧ s.Tags.Language = "eng" ∧ s.Channels ≤ 6) ∧
        (∀ t ∈ pre, ¬ (t.CodecType = "audio" ∧ t.Tags.Language = "eng" ∧ t.Channels ≤ 6)) ∧
        (selection scenarioMovie.Streams "jpn").filter
            (fun m =>
              decide (m.stream.CodecType = "audio" ∧ m.stream.Tags.Language = "eng")) =
          [Mapped.audio s]) ∧
      (selection scenarioMovie.Streams "jpn").filter
          (fun m => decide (m.stream.CodecType = "audio" ∧ m.stream.Tags.Language = "jpn")) =
        [] :=
  ⟨((C3_audio_selection scenarioMovie "in.mkv" "out.mkv" "jpn").2.1 "eng" (by decide)).1
      ⟨scenarioAudioEng, by decide, by decide⟩,
   ((C3_audio_selection scenarioMovie "in.mkv" "out.mkv" "jpn").2.1 "jpn" (by decide)).2
      (by decide)⟩

/-- C4: `addAudioStream` appends `-map 0:<Index>`, then `-c:k copy` when the
codec name is `ac3`, `eac3` or `aac` and `-c:k ac3 -b:k 640k` for every other
codec name, then `-metadata:s:k language=<own tag>`; the pair `-c:k copy`
occurs exactly for the three codecs, and then no `-b:k` token occurs. -/
theorem C4_audio_codec_choice (output : List String) (stream : ParsedStream) (k : Nat) :
    (stream.CodecName ∈ ["ac3", "eac3", "aac"] →
      addAudioStream output stream k =
        output ++ ["-map", "0:" ++ toString stream.Index,
          "-c:" ++ toString k, "copy",
          "-metadata:s:" ++ toString k, "language=" ++ stream.Tags.Language]) ∧
    (stream.CodecName ∉ ["ac3", "eac3", "aac"] →
      addAudioStream output stream k =
        output ++ ["-map", "0:" ++ toString stream.Index,
          "-c:" ++ toString k, "ac3", "-b:" ++ toString k, "640k",
          "-metadata:s:" ++ toString k, "language=" ++ stream.Tags.Language]) ∧
    (List.IsInfix ["-c:" ++ toString k, "copy"] (addAudioStream [] stream k) ↔
      stream.CodecName ∈ ["ac3", "eac3", "aac"]) ∧
    (stream.CodecName ∈ ["ac3", "eac3", "aac"] →
      "-b:" ++ toString k ∉ addAudioStream [] stream k) ∧
    addAudioStream output stream k = output ++ addAudioStream [] stream k := by
  have hcopy : stream.CodecName ∈ ["ac3", "eac3", "aac"] →
      addAudioStream [] stream k =
        ["-map", "0:" ++ toString stream.Index, "-c:" ++ toString k, "copy",
          "-metadata:s:" ++ toString k, "language=" ++ stream.Tags.Language] := by
    intro h
    have h' : stream.CodecName = "ac3" ∨ stream.CodecName = "eac3" ∨
        stream.CodecName = "aac" := by simpa using h
    simp [addAudioStream, h', fmtMap, fmtCodec, fmtMeta, fmtLang]
  have hac3 : stream.CodecName ∉ ["ac3", "eac3", "aac"] →
      addAudioStream [] stream k =
        ["-map", "0:" ++ toString stream.Index, "-c:" ++ toString k, "ac3",
          "-b:" ++ toString k, "640k",
          "-metadata:s:" ++ toString k, "language=" ++ stream.Tags.Language] := by
    intro h
    have h' : ¬ (stream.CodecName = "ac3" ∨ stream.CodecName = "eac3" ∨
        stream.CodecName = "aac") := by simpa using h
    simp [addAudioStream, h', fmtMap, fmtCodec, fmtBitrate, fmtMeta, fmtLang]
  have hne1 : "0:" ++ toString stream.Index ≠ "copy" := by
    intro h
    have := congrArg String.data h
    simp at this
  have hne2 : "language=" ++ stream.Tags.Language ≠ "copy" := by
    intro h
    have := congrArg String.data h
    simp at this
  have hne3 : "-c:" ++ toString k ≠ "copy" := by
    intro h
    have := congrArg String.data h
    simp at this
  have hne4 : "-b:" ++ toString k ≠ "copy" := by
    intro h
    have := congrArg String.data h
    simp at this
  have hne5 : "-metadata:s:" ++ toString k ≠ "copy" := by
    intro h
    have := congrArg String.data h
    simp at this
  have hb1 : "-b:" ++ toString k ≠ "0:" ++ toString stream.Index := by
    intro h
    have := congrArg String.data h
    simp at this
  have hb2 : "-b:" ++ toString k ≠ "-c:" ++ toString k := by
    intro h
    have := congrArg String.data h
    simp at this
  have hb3 : "-b:" ++ toString k ≠ "-metadata:s:" ++ toString k := by
    intro h
    have := congrArg String.data h
    simp at this
  have hb4 : "-b:" ++ toString k ≠ "language=" ++ stream.Tags.Language := by
    intro h
    have := congrArg String.data h
    simp at this
  have hb5 : "-b:" ++ toString k ≠ "-map" := by
    intro h
    have := congrArg String.data h
    simp at this
  refine ⟨?_, ?_, ?_, ?_, addAudioStream_eq_append output stream k⟩
  · intro h
    rw [addAudioStream_eq_append, hcopy h]
  · intro h
    rw [addAudioStream_eq_append, hac3 h]
  · constructor
    · intro hin
      by_contra hno
      rw [hac3 hno] at hin
      have hmem : "copy" ∈ ["-map", "0:" ++ toString stream.Index, "-c:" ++ toString k, "ac3",
          "-b:" ++ toString k, "640k",
          "-metadata:s:" ++ toString k, "language=" ++ stream.Tags.Language] :=
        hin.subset (by simp)
      simp only [List.mem_cons, List.mem_singleton, List.not_mem_nil, or_false] at hmem
      rcases hmem with h | h | h | h | h | h | h | h
      · exact absurd h (by decide)
      · exact hne1 h.symm
      · exact hne3 h.symm
      · exact absurd h (by decide)
      · exact hne4 h.symm
      · exact absurd h (by decide)
      · exact hne5 h.symm
      · exact hne2 h.symm
    · intro h
      rw [hcopy h]
      exact ⟨["-map", "0:" ++ toString stream.Index],
        ["-metadata:s:" ++ toString k, "language=" ++ stream.Tags.Language], by simp⟩
  · intro h hmem
    rw [hcopy h] at hmem
    simp only [List.mem_cons, List.mem_singleton, List.not_mem_nil, or_false] at hmem
    rcases hmem with h | h | h | h | h | h
    · exact hb5 h
    · exact hb1 h
    · exact hb2 h
    · exact hne4 h
    · exact hb3 h
    · exact hb4 h

/-- C4 at concrete inputs: an AAC stream is copied, a DTS stream is transcoded
to AC-3 at 640k. -/
theorem C4_audio_codec_choice_witness :
    addAudioStream [] scenarioAudioEng 1 =
        ["-map", "0:1", "-c:1", "copy", "-metadata:s:1", "language=eng"] ∧
      addAudioStream [] dtsAudio 2 =
        ["-map", "0:4", "-c:2", "ac3", "-b:2", "640k", "-metadata:s:2", "language=eng"] :=
  ⟨(C4_audio_codec_choice [] scenarioAudioEng 1).1 (by decide),
   (C4_audio_codec_choice [] dtsAudio 2).2.1 (by decide)⟩

/-- C5: the priority list is `rus`, then the original language if it is not
`rus`, then `eng` if the original language is not `eng`; it has no duplicate
entry and 2 or 3 entries. -/
theorem C5_language_priority_list (o : String) :
    languages o =
      ["rus"] ++ (if o ≠ "rus" then [o] else []) ++ (if o ≠ "eng" then ["eng"] else []) ∧
    (languages o).Nodup ∧
    ((languages o).length = 2 ∨ (languages o).length = 3) := by
  by_cases h1 : o = "rus"
  · subst h1
    decide
  · by_cases h2 : o = "eng"
    · subst h2
      decide
    · have h1' : ¬ "rus" = o := fun h => h1 h.symm
      simp [languages, TargetLang, DefaultOrigLang, h1, h2, h1']

/-- C6: the k-th mapped stream of the command (k = 0, 1, ...) is given the
output index k: the tokens of the mapped streams are those of the streams
paired with their positions, and a stream at position k is emitted with
`-c:k`, `-metadata:s:k` and, when transcoded, `-b:k`, whatever its source
index. -/
theorem C6_sequential_output_indices (movie : ParsedMovie)
    (source target videoLang : String) :
    (muxBody movie source target videoLang).output =
        initOutput source ++
          (selection movie.Streams videoLang).enum.flatMap (fun p => p.2.tokens p.1) ++
          [fmtQuote target] ∧
    (∀ (m : Mapped) (k : Nat),
      m.tokens k =
          ["-map", "0:" ++ toString m.stream.Index, "-c:" ++ toString k, "copy",
            "-metadata:s:" ++ toString k, "language=" ++ m.lang] ∨
        m.tokens k =
          ["-map", "0:" ++ toString m.stream.Index, "-c:" ++ toString k, "ac3",
            "-b:" ++ toString k, "640k",
            "-metadata:s:" ++ toString k, "language=" ++ m.lang]) ∧
    (muxBody movie source target videoLang).streamIndex =
      (selection movie.Streams videoLang).length := by
  refine ⟨?_, ?_, ?_⟩
  · rw [muxBody_output, renderAt_eq_enumFrom]
    rfl
  · intro m k
    cases m with
    | video s lang => exact Or.inl rfl
    | audio s =>
      by_cases h : s.CodecName = "ac3" ∨ s.CodecName = "eac3" ∨ s.CodecName = "aac"
      · left
        simp [Mapped.tokens, Mapped.stream, Mapped.lang, addAudioStream, h, fmtMap, fmtCodec,
          fmtMeta, fmtLang]
      · right
        simp [Mapped.tokens, Mapped.stream, Mapped.lang, addAudioStream, h, fmtMap, fmtCodec,
          fmtBitrate, fmtMeta, fmtLang]
    | subtitle s => exact Or.inl rfl
  · rw [muxBody_eq]

/-- C7: for every language `L` of the priority list, if some stream is a
subtitle stream tagged `L`, the mapped subtitle streams tagged `L` are exactly
one, the first such stream of the list, and otherwise none; a mapped subtitle
stream is emitted as `-map 0:<Index> -c:k copy -metadata:s:k language=<own
tag>`, whatever its codec name and channel count. -/
theorem C7_subtitle_selection (movie : ParsedMovie) (source target videoLang : String) :
    (muxBody movie source target videoLang).output =
        initOutput source ++ renderAt 0 (selection movie.Streams videoLang) ++
          [fmtQuote target] ∧
    (∀ L ∈ languages (muxBody movie source target videoLang).origLang,
      ((∃ t ∈ movie.Streams, t.CodecType = "subtitle" ∧ t.Tags.Language = L) →
        ∃ s pre post, movie.Streams = pre ++ s :: post ∧
          (s.CodecType = "subtitle" ∧ s.Tags.Language = L) ∧
          (∀ t ∈ pre, ¬ (t.CodecType = "subtitle" ∧ t.Tags.Language = L)) ∧
          (selection movie.Streams videoLang).filter
              (fun m =>
                decide (m.stream.CodecType = "subtitle" ∧ m.stream.Tags.Language = L)) =
            [Mapped.subtitle s]) ∧
      ((∀ t ∈ movie.Streams, ¬ (t.CodecType = "subtitle" ∧ t.Tags.Language = L)) →
        (selection movie.Streams videoLang).filter
            (fun m =>
              decide (m.stream.CodecType = "subtitle" ∧ m.stream.Tags.Language = L)) =
          [])) ∧
    (∀ m ∈ selection movie.Streams videoLang, m.stream.CodecType = "subtitle" →
      m = Mapped.subtitle m.stream) ∧
    (∀ (s : ParsedStream) (k : Nat),
      (Mapped.subtitle s).tokens k =
        ["-map", "0:" ++ toString s.Index, "-c:" ++ toString k, "copy",
          "-metadata:s:" ++ toString k, "language=" ++ s.Tags.Language]) := by
  refine ⟨muxBody_output movie source target videoLang, ?_, ?_, ?_⟩
  · intro L hL
    rw [muxBody_origLang] at hL
    constructor
    · rintro ⟨t, ht, hta⟩
      cases h : firstSubtitle movie.Streams L with
      | none => exact absurd hta ((firstSubtitle_eq_none_iff _ _).1 h t ht)
      | some s =>
        obtain ⟨hs, pre, post, hsplit, hpre⟩ := (firstSubtitle_eq_some_iff _ _ _).1 h
        refine ⟨s, pre, post, hsplit, hs, hpre, ?_⟩
        rw [selection_filter_subtitle _ _ _ hL, h]
        rfl
    · intro hno
      rw [selection_filter_subtitle _ _ _ hL, (firstSubtitle_eq_none_iff _ _).2 hno]
      rfl
  · intro m hm hms
    simp only [selection, List.mem_append] at hm
    rcases hm with (hm | hm) | hm
    · rw [videoPart_codecType _ _ m hm] at hms
      exact absurd hms (by decide)
    · rw [(audioPart_codecType _ _ m hm).1] at hms
      exact absurd hms (by decide)
    · obtain ⟨L, -, s, rfl, -⟩ := subtitlePart_mem _ _ m hm
      rfl
  · intro s k
    rfl

/-- C7 at a concrete input: the scenario container has a subtitle stream for
`rus`, which is mapped, and none for `eng`. -/
theorem C7_subtitle_selection_witness :
    (∃ s pre post, scenarioMovie.Streams = pre ++ s :: post ∧
        (s.CodecType = "subtitle" ∧ s.Tags.Language = "rus") ∧
        (∀ t ∈ pre, ¬ (t.CodecType = "subtitle" ∧ t.Tags.Language = "rus")) ∧
        (selection scenarioMovie.Streams "").filter
            (fun m =>
              decide (m.stream.CodecType = "subtitle" ∧ m.stream.Tags.Language = "rus")) =
          [Mapped.subtitle s]) ∧
      (selection scenarioMovie.Streams "").filter
          (fun m =>
            decide (m.stream.CodecType = "subtitle" ∧ m.stream.Tags.Language = "eng")) =
        [] :=
  ⟨((C7_subtitle_selection scenarioMovie "in.mkv" "out.mkv" "").2.1 "rus" (by decide)).1
      ⟨scenarioSubtitle, by decide, by decide⟩,
   ((C7_subtitle_selection scenarioMovie "in.mkv" "out.mkv" "").2.1 "eng" (by decide)).2
      (by decide)⟩

/-- C8: when the stream list contains a video stream, the first one is
emitted as `-map 0:<Index> -c:0 copy -metadata:s:0 language=<o>` right after
the fixed prefix, where `o` is the override if it is not empty, else the
stream's own tag if it is not empty, else `eng`; `o` is the original language
`mux` goes on with, and the codec name plays no part. -/
theorem C8_video_formatting (movie : ParsedMovie) (source target videoLang : String)
    (s : ParsedStream) (pre post : List ParsedStream)
    (hsplit : movie.Streams = pre ++ s :: post) (hs : s.CodecType = "video")
    (hpre : ∀ t ∈ pre, t.CodecType ≠ "video") :
    (muxBody movie source target videoLang).origLang =
        (if videoLang ≠ "" then videoLang
         else if s.Tags.Language ≠ "" then s.Tags.Language else "eng") ∧
    (muxBody movie source target videoLang).output =
        initOutput source ++
          ["-map", "0:" ++ toString s.Index, "-c:0", "copy", "-metadata:s:0",
            "language=" ++ (if videoLang ≠ "" then videoLang
              else if s.Tags.Language ≠ "" then s.Tags.Language else "eng")] ++
          renderAt 1
            (audioPart movie.Streams (languages (muxBody movie source target videoLang).origLang)
              ++ subtitlePart movie.Streams
                (languages (muxBody movie source target videoLang).origLang)) ++
          [fmtQuote target] ∧
    (∀ m ∈ audioPart movie.Streams (languages (muxBody movie source target videoLang).origLang)
        ++ subtitlePart movie.Streams
          (languages (muxBody movie source target videoLang).origLang),
      m.stream.CodecType ≠ "video") := by
  have hv : firstVideo movie.Streams = some s :=
    (firstVideo_eq_some_iff _ _).2 ⟨hs, pre, post, hsplit, hpre⟩
  have ho : (muxBody movie source target videoLang).origLang = pickLang videoLang s := by
    rw [muxBody_origLang]
    simp [origLangAfterVideo, hv]
  refine ⟨?_, ?_, ?_⟩
  · rw [ho]
    rfl
  · have ho2 : origLangAfterVideo movie.Streams videoLang = pickLang videoLang s := by
      simp [origLangAfterVideo, hv]
    have hc : fmtCodec 0 = "-c:0" := by decide
    have hm : fmtMeta 0 = "-metadata:s:0" := by decide
    have hvid : renderAt 0 [Mapped.video s (pickLang videoLang s)] =
        ["-map", "0:" ++ toString s.Index, "-c:0", "copy", "-metadata:s:0",
          "language=" ++ (if videoLang ≠ "" then videoLang
            else if s.Tags.Language ≠ "" then s.Tags.Language else "eng")] := by
      simp only [renderAt, Mapped.tokens, hc, hm, List.append_nil]
      rfl
    have hsel : selection movie.Streams videoLang =
        [Mapped.video s (pickLang videoLang s)] ++
          (audioPart movie.Streams (languages (pickLang videoLang s)) ++
            subtitlePart movie.Streams (languages (pickLang videoLang s))) := by
      rw [selection, ho2, videoPart_eq_of_some _ _ s hv, List.append_assoc]
    rw [muxBody_output, ho, hsel, renderAt_append, hvid]
    simp only [List.length_singleton, Nat.zero_add, List.append_assoc]
  · intro m hm
    rcases List.mem_append.1 hm with h | h
    · rw [(audioPart_codecType _ _ m h).1]
      decide
    · rw [(subtitlePart_codecType _ _ m h).1]
      decide

/-- C8 at a concrete input: with the override `jpn`, the video stream of the
scenario container, whose own tag is `rus`, is tagged `jpn`. -/
theorem C8_video_formatting_witness :
    (muxBody scenarioMovie "in.mkv" "out.mkv" "jpn").origLang = "jpn" ∧
      (muxBody scenarioMovie "in.mkv" "out.mkv" "jpn").output.take 17 =
        initOutput "in.mkv" ++
          ["-map", "0:0", "-c:0", "copy", "-metadata:s:0", "language=jpn"] :=
  have h := C8_video_formatting scenarioMovie "in.mkv" "out.mkv" "jpn" scenarioVideo []
    [scenarioAudioEng, scenarioAudioRus, scenarioSubtitle] rfl rfl (by simp)
  ⟨h.1, by rw [h.2.1]; rfl⟩

/-- C9: the mapped streams appear in this order: the first video stream (at
most one), then for each language of the priority list in order its first
audio stream with at most 6 channels, if any, then for each language of the
priority list in order its first subtitle stream, if any; a language without a
match contributes nothing and the other selections stay as they are. -/
theorem C9_ordered_selection (movie : ParsedMovie) (source target videoLang : String) :
    (muxBody movie source target videoLang).output =
        initOutput source ++
          renderAt 0
            ((firstVideo movie.Streams).toList.map
                (fun s => Mapped.video s (muxBody movie source target videoLang).origLang) ++
              (languages (muxBody movie source target videoLang).origLang).flatMap
                (fun L => (firstAudio movie.Streams L).toList.map Mapped.audio) ++
              (languages (muxBody movie source target videoLang).origLang).flatMap
                (fun L => (firstSubtitle movie.Streams L).toList.map Mapped.subtitle)) ++
          [fmtQuote target] ∧
    ((firstVideo movie.Streams).toList.length ≤ 1) ∧
    (∀ L, ((firstAudio movie.Streams L).toList.map Mapped.audio).length ≤ 1) ∧
    (∀ L, ((firstSubtitle movie.Streams L).toList.map Mapped.subtitle).length ≤ 1) ∧
    (∀ xs ys zs : List Mapped, ∀ k,
      renderAt k (xs ++ ys ++ zs) =
        renderAt k xs ++ renderAt (k + xs.length) ys ++
          renderAt (k + xs.length + ys.length) zs) := by
  refine ⟨?_, ?_, ?_, ?_, ?_⟩
  · rw [muxBody_output, muxBody_origLang, selection_eq_flatMap]
  · cases firstVideo movie.Streams <;> simp
  · intro L
    cases firstAudio movie.Streams L <;> simp
  · intro L
    cases firstSubtitle movie.Streams L <;> simp
  · intro xs ys zs k
    rw [renderAt_append, renderAt_append, List.length_append, Nat.add_assoc]

/-- C10: when probing succeeds, `mux` returns no error and the token list
joined by single spaces; the token list is the fixed prefix with the source
path between double quotes, the stream tokens, and the target path between
double quotes as last token, so the string starts with the fixed prefix and
ends with a space and the quoted target, the paths being inserted verbatim. -/
theorem C10_command_shape (parse : String → Except String ParsedMovie)
    (movie : ParsedMovie) (source target videoLang : String)
    (hp : parse source = .ok movie) :
    (mux parse source target videoLang).err = none ∧
    (mux parse source target videoLang).cmd =
      String.intercalate " "
        (["ffmpeg", "-fflags", "+genpts", "-i", "\"" ++ source ++ "\"",
            "-map_chapters", "-1", "-map_metadata", "-1",
            "-default_mode", "infer_no_subs"] ++
          renderAt 0 (selection movie.Streams videoLang) ++ ["\"" ++ target ++ "\""]) ∧
    (mux parse source target videoLang).cmd =
      "ffmpeg -fflags +genpts -i \"" ++ source ++
        "\" -map_chapters -1 -map_metadata -1 -default_mode infer_no_subs" ++
        String.join ((renderAt 0 (selection movie.Streams videoLang)).map
          (fun t => " " ++ t)) ++
        " \"" ++ target ++ "\"" := by
  have hcmd : (mux parse source target videoLang).cmd =
      String.intercalate " " (initOutput source ++
        renderAt 0 (selection movie.Streams videoLang) ++ [fmtQuote target]) := by
    simp only [mux, hp, muxBody_output]
  refine ⟨by simp [mux, hp], ?_, ?_⟩
  · rw [hcmd]
    rfl
  · rw [hcmd, intercalate_initOutput]

/-- C10 at a concrete input: the command printed for the scenario container. -/
theorem C10_command_shape_witness :
    (mux (fun _ => .ok scenarioMovie) "in.mkv" "out.mkv" "").err = none ∧
      (mux (fun _ => .ok scenarioMovie) "in.mkv" "out.mkv" "").cmd =
        String.intercalate " "
          (["ffmpeg", "-fflags", "+genpts", "-i", "\"" ++ "in.mkv" ++ "\"",
              "-map_chapters", "-1", "-map_metadata", "-1",
              "-default_mode", "infer_no_subs"] ++
            renderAt 0 (selection scenarioMovie.Streams "") ++
            ["\"" ++ "out.mkv" ++ "\""]) :=
  have h := C10_command_shape (fun _ => .ok scenarioMovie) scenarioMovie
    "in.mkv" "out.mkv" "" rfl
  ⟨h.1, h.2.1⟩

/-- C11: for the stream list video (index 0, `rus`), audio (index 1, `aac`,
2 channels, `eng`), audio (index 2, `ac3`, 6 channels, `rus`), subtitle
(index 3, `rus`) and an empty override, `mux` resolves the original language
to `rus`, uses the priority list `rus`, `eng`, writes no warning and maps
exactly four streams: video `0:0`, audio `0:2`, audio `0:1`, subtitle `0:3`,
all copied, with the output indices 0, 1, 2, 3. -/
theorem C11_worked_scenario (source target : String) :
    scenarioMovie.Streams =
        [{ Index := 0, CodecName := "h264", CodecType := "video", Channels := 0,
           Tags := { Language := "rus" } },
         { Index := 1, CodecName := "aac", CodecType := "audio", Channels := 2,
           Tags := { Language := "eng" } },
         { Index := 2, CodecName := "ac3", CodecType := "audio", Channels := 6,
           Tags := { Language := "rus" } },
         { Index := 3, CodecName := "subrip", CodecType := "subtitle", Channels := 0,
           Tags := { Language := "rus" } }] ∧
    (muxBody scenarioMovie source target "").origLang = "rus" ∧
    languages (muxBody scenarioMovie source target "").origLang = ["rus", "eng"] ∧
    (muxBody scenarioMovie source target "").stderr = [] ∧
    (mux (fun _ => .ok scenarioMovie) source target "").stderr = [] ∧
    selection scenarioMovie.Streams "" =
        [Mapped.video scenarioVideo "rus", Mapped.audio scenarioAudioRus,
          Mapped.audio scenarioAudioEng, Mapped.subtitle scenarioSubtitle] ∧
    (muxBody scenarioMovie source target "").output =
        initOutput source ++
          ["-map", "0:0", "-c:0", "copy", "-metadata:s:0", "language=rus",
           "-map", "0:2", "-c:1", "copy", "-metadata:s:1", "language=rus",
           "-map", "0:1", "-c:2", "copy", "-metadata:s:2", "language=eng",
           "-map", "0:3", "-c:3", "copy", "-metadata:s:3", "language=rus"] ++
          ["\"" ++ target ++ "\""] ∧
    mapArgs (muxBody scenarioMovie source target "").output =
        ["0:0", "0:2", "0:1", "0:3"] ∧
    (muxBody scenarioMovie source target "").streamIndex = 4 := by
  have hsel : selection scenarioMovie.Streams "" =
      [Mapped.video scenarioVideo "rus", Mapped.audio scenarioAudioRus,
        Mapped.audio scenarioAudioEng, Mapped.subtitle scenarioSubtitle] := by decide
  have ho : origLangAfterVideo scenarioMovie.Streams "" = "rus" := by decide
  have hw : warnings scenarioMovie.Streams "" = [] := by decide
  have hr : renderAt 0 [Mapped.video scenarioVideo "rus", Mapped.audio scenarioAudioRus,
        Mapped.audio scenarioAudioEng, Mapped.subtitle scenarioSubtitle] =
      ["-map", "0:0", "-c:0", "copy", "-metadata:s:0", "language=rus",
       "-map", "0:2", "-c:1", "copy", "-metadata:s:1", "language=rus",
       "-map", "0:1", "-c:2", "copy", "-metadata:s:2", "language=eng",
       "-map", "0:3", "-c:3", "copy", "-metadata:s:3", "language=rus"] := by decide
  refine ⟨rfl, ?_, ?_, ?_, ?_, hsel, ?_, ?_, ?_⟩
  · rw [muxBody_origLang, ho]
  · rw [muxBody_origLang, ho]
    decide
  · rw [muxBody_eq]
    exact hw
  · simp only [mux]
    rw [muxBody_eq]
    exact hw
  · rw [muxBody_output, hsel, hr]
    rfl
  · rw [mapArgs_muxBody, hsel]
    decide
  · rw [muxBody_eq, hsel]
    rfl

/-- C12: `mux` returns an error, together with the empty string, exactly when
the probe returns an error, and a command and no error otherwise; `main`
prints the usage text and does not call `mux` exactly when the number of
positional arguments is not 2, and with two arguments it calls `mux` once and
prints `Unable to mux file` when `mux` fails and the command otherwise. -/
theorem C12_error_surfacing (parse : String → Except String ParsedMovie)
    (videoLang : String) :
    (∀ source target,
      ((mux parse source target videoLang).err ≠ none ↔ ∃ e, parse source = .error e) ∧
      (∀ e, parse source = .error e →
        (mux parse source target videoLang).err = some e ∧
          (mux parse source target videoLang).cmd = "") ∧
      (∀ movie, parse source = .ok movie →
        (mux parse source target videoLang).err = none ∧
          (mux parse source target videoLang).cmd =
            String.intercalate " " (muxBody movie source target videoLang).output)) ∧
    (∀ args : List String,
      (args.length ≠ 2 ↔ (main parse videoLang args).stdout = usageLines) ∧
      (args.length ≠ 2 ↔ (main parse videoLang args).muxCalls = []) ∧
      (args.length ≠ 2 → (main parse videoLang args).stderr = [])) ∧
    (∀ source target,
      (main parse videoLang [source, target]).muxCalls = [(source, target, videoLang)] ∧
      (main parse videoLang [source, target]).stdout = [] ∧
      ((mux parse source target videoLang).err ≠ none →
        (main parse videoLang [source, target]).stderr =
          (mux parse source target videoLang).stderr ++ ["Unable to mux file"]) ∧
      ((mux parse source target videoLang).err = none →
        (main parse videoLang [source, target]).stderr =
          (mux parse source target videoLang).stderr ++
            [(mux parse source target videoLang).cmd])) := by
  refine ⟨?_, ?_, ?_⟩
  · intro source target
    cases hp : parse source with
    | error e => simp [mux, hp]
    | ok movie => simp [mux, hp]
  · intro args
    by_cases h : args.length = 2
    · have hmain : (main parse videoLang args).stdout = [] ∧
          (main parse videoLang args).muxCalls ≠ [] := by
        simp only [main, h, ne_eq, not_true_eq_false, if_false]
        cases (mux parse (args.getD 0 "") (args.getD 1 "") videoLang).err <;> simp
      have hu : ([] : List String) ≠ usageLines := by decide
      refine ⟨⟨fun hne => absurd h hne, fun he => ?_⟩, ⟨fun hne => absurd h hne, fun he => ?_⟩,
        fun hne => absurd h hne⟩
      · rw [hmain.1] at he
        exact absurd he hu
      · exact absurd he hmain.2
    · simp [main, h]
  · intro source target
    cases he : (mux parse source target videoLang).err with
    | none => simp [main, he]
    | some e => simp [main, he]

/-- C12 at concrete inputs: with two arguments and a failing probe `main`
prints the fixed message, and with a successful probe it prints the command. -/
theorem C12_error_surfacing_witness :
    ((mux (fun _ => .error "exit status 1") "in.mkv" "out.mkv" "").err ≠ none ∧
      (main (fun _ => .error "exit status 1") "" ["in.mkv", "out.mkv"]).stderr =
        (mux (fun _ => .error "exit status 1") "in.mkv" "out.mkv" "").stderr ++
          ["Unable to mux file"]) ∧
    ((mux (fun _ => .ok scenarioMovie) "in.mkv" "out.mkv" "").err = none ∧
      (main (fun _ => .ok scenarioMovie) "" ["in.mkv", "out.mkv"]).stderr =
        (mux (fun _ => .ok scenarioMovie) "in.mkv" "out.mkv" "").stderr ++
          [(mux (fun _ => .ok scenarioMovie) "in.mkv" "out.mkv" "").cmd]) :=
  ⟨⟨by decide,
    ((C12_error_surfacing (fun _ => .error "exit status 1") "").2.2
      "in.mkv" "out.mkv").2.2.1 (by decide)⟩,
   ⟨rfl,
    ((C12_error_surfacing (fun _ => .ok scenarioMovie) "").2.2
      "in.mkv" "out.mkv").2.2.2 rfl⟩⟩

/-- C13: the command maps at most 7 streams, at most 1 of codec type `video`,
at most 3 of codec type `audio` and at most 3 of codec type `subtitle`; the
`byte` counter `streamIndex` is at most 1 after the video loop, at most 4
after the audio loop and at most 7 at the end, where it equals the number of
mapped streams, so it never wraps around. -/
theorem C13_bounded_stream_count (movie : ParsedMovie) (source target videoLang : String) :
    (muxBody movie source target videoLang).output =
        initOutput source ++ renderAt 0 (selection movie.Streams videoLang) ++
          [fmtQuote target] ∧
    (selection movie.Streams videoLang).length ≤ 7 ∧
    ((selection movie.Streams videoLang).filter
        (fun m => decide (m.stream.CodecType = "video"))).length ≤ 1 ∧
    ((selection movie.Streams videoLang).filter
        (fun m => decide (m.stream.CodecType = "audio"))).length ≤ 3 ∧
    ((selection movie.Streams videoLang).filter
        (fun m => decide (m.stream.CodecType = "subtitle"))).length ≤ 3 ∧
    (videoLoop movie.Streams
        { output := initOutput source, streamIndex := 0, origLang := videoLang,
          stderr := [] }).streamIndex ≤ 1 ∧
    (audioLoop movie.Streams
        (languages (videoLoop movie.Streams
          { output := initOutput source, streamIndex := 0, origLang := videoLang,
            stderr := [] }).origLang)
        (videoLoop movie.Streams
          { output := initOutput source, streamIndex := 0, origLang := videoLang,
            stderr := [] })).streamIndex ≤ 4 ∧
    (muxBody movie source target videoLang).streamIndex =
        (selection movie.Streams videoLang).length ∧
    (muxBody movie source target videoLang).streamIndex ≤ 7 := by
  have hv := videoPart_length_le movie.Streams videoLang
  have ha := audioPart_length_le movie.Streams
    (languages (origLangAfterVideo movie.Streams videoLang))
  have hs := subtitlePart_length_le movie.Streams
    (languages (origLangAfterVideo movie.Streams videoLang))
  have hl := languages_length_le (origLangAfterVideo movie.Streams videoLang)
  have hlen := selection_length_le movie.Streams videoLang
  refine ⟨muxBody_output movie source target videoLang, hlen, ?_, ?_, ?_, ?_, ?_, ?_, ?_⟩
  · rw [selection_filter_video]
    exact hv
  · rw [selection_filter_audioType]
    omega
  · rw [selection_filter_subtitleType]
    omega
  · rw [videoLoop_init]
    show bump (videoPart movie.Streams videoLang).length 0 ≤ 1
    rw [bump_eq_add _ _ (by omega)]
    omega
  · rw [videoLoop_init, audioLoop_eq]
    show bump (audioPart movie.Streams
        (languages (origLangAfterVideo movie.Streams videoLang))).length
      (bump (videoPart movie.Streams videoLang).length 0) ≤ 4
    rw [bump_add, bump_eq_add _ _ (by omega)]
    omega
  · rw [muxBody_eq]
  · rw [muxBody_eq]
    exact hlen

/-- C14: the mapped streams sit at the list positions `positions`, the
positions of the first matches, and these are pairwise distinct; the arguments
of the `-map` tokens of the command are the formatted source indices of the
mapped streams, in order, and they are pairwise distinct when the source
indices of the streams of the list are pairwise distinct. -/
theorem C14_no_stream_mapped_twice (movie : ParsedMovie)
    (source target videoLang : String) :
    (muxBody movie source target videoLang).output =
        initOutput source ++ renderAt 0 (selection movie.Streams videoLang) ++
          [fmtQuote target] ∧
    (positions movie.Streams videoLang).map (fun i => movie.Streams[i]?) =
        (selection movie.Streams videoLang).map (fun m => some m.stream) ∧
    (positions movie.Streams videoLang).Nodup ∧
    ((selection movie.Streams videoLang).map Mapped.stream).Nodup ∧
    mapArgs (muxBody movie source target videoLang).output =
        (selection movie.Streams videoLang).map
          (fun m => "0:" ++ toString m.stream.Index) ∧
    ((movie.Streams.map (fun s => s.Index)).Nodup →
      (mapArgs (muxBody movie source target videoLang).output).Nodup) := by
  refine ⟨muxBody_output movie source target videoLang, positions_get _ _,
    positions_nodup _ _, selection_streams_nodup _ _, mapArgs_muxBody _ _ _ _, ?_⟩
  intro hidx
  rw [mapArgs_muxBody]
  exact selection_map_args_nodup _ _ hidx

/-- C14 at a concrete input: the source indices 0, 1, 2, 3 of the scenario
container are pairwise distinct, and so are the arguments of the `-map`
tokens of its command. -/
theorem C14_no_stream_mapped_twice_witness :
    (scenarioMovie.Streams.map (fun s => s.Index)).Nodup ∧
      (mapArgs (muxBody scenarioMovie "in.mkv" "out.mkv" "").output).Nodup :=
  ⟨by decide,
   (C14_no_stream_mapped_twice scenarioMovie "in.mkv" "out.mkv" "").2.2.2.2.2 (by decide)⟩

/-- C15: every mapped stream is a stream of the list of codec type `video`,
`audio` or `subtitle`; every mapped audio or subtitle stream has a language
tag that is an entry of the priority list, so an audio or subtitle stream
whose tag is not in the priority list is not mapped. -/
theorem C15_only_preferred_streams (movie : ParsedMovie)
    (source target videoLang : String) :
    (muxBody movie source target videoLang).output =
        initOutput source ++ renderAt 0 (selection movie.Streams videoLang) ++
          [fmtQuote target] ∧
    (∀ m ∈ selection movie.Streams videoLang,
      m.stream ∈ movie.Streams ∧
        (m.stream.CodecType = "video" ∨ m.stream.CodecType = "audio" ∨
          m.stream.CodecType = "subtitle")) ∧
    (∀ m ∈ selection movie.Streams videoLang,
      m.stream.CodecType = "audio" ∨ m.stream.CodecType = "subtitle" →
        m.stream.Tags.Language ∈ languages (muxBody movie source target videoLang).origLang) ∧
    (∀ s ∈ movie.Streams, s.CodecType = "audio" ∨ s.CodecType = "subtitle" →
      s.Tags.Language ∉ languages (muxBody movie source target videoLang).origLang →
        ∀ m ∈ selection movie.Streams videoLang, m.stream ≠ s) := by
  have htag : ∀ m ∈ selection movie.Streams videoLang,
      m.stream.CodecType = "audio" ∨ m.stream.CodecType = "subtitle" →
        m.stream.Tags.Language ∈
          languages (muxBody movie source target videoLang).origLang := by
    intro m hm hty
    rw [muxBody_origLang]
    simp only [selection, List.mem_append] at hm
    rcases hm with (hm | hm) | hm
    · rw [videoPart_codecType _ _ m hm] at hty
      rcases hty with h | h <;> exact absurd h (by decide)
    · exact (audioPart_codecType _ _ m hm).2.2
    · exact (subtitlePart_codecType _ _ m hm).2
  refine ⟨muxBody_output movie source target videoLang, ?_, htag, ?_⟩
  · intro m hm
    refine ⟨selection_stream_mem _ _ m hm, ?_⟩
    simp only [selection, List.mem_append] at hm
    rcases hm with (hm | hm) | hm
    · exact Or.inl (videoPart_codecType _ _ m hm)
    · exact Or.inr (Or.inl (audioPart_codecType _ _ m hm).1)
    · exact Or.inr (Or.inr (subtitlePart_codecType _ _ m hm).1)
  · intro s _ hty hnot m hm heq
    apply hnot
    rw [← heq]
    exact htag m hm (by rw [heq]; exact hty)

/-- C15 at a concrete input: the audio stream tagged `fra` is not mapped when
the priority list is `rus`, `eng`. -/
theorem C15_only_preferred_streams_witness :
    frenchAudio ∈ frenchMovie.Streams ∧
      (frenchAudio.CodecType = "audio" ∨ frenchAudio.CodecType = "subtitle") ∧
      frenchAudio.Tags.Language ∉
        languages (muxBody frenchMovie "in.mkv" "out.mkv" "").origLang ∧
      ∀ m ∈ selection frenchMovie.Streams "", m.stream ≠ frenchAudio :=
  ⟨by decide, by decide, by decide,
   (C15_only_preferred_streams frenchMovie "in.mkv" "out.mkv" "").2.2.2 frenchAudio
     (by decide) (by decide) (by decide)⟩

end MkvRemux
